/-
Verification of the content-extraction pipeline of the Personal_Agent
repository (src/clippers.py, src/utils.py) against its natural-language
specification.

The Python source is shallowly embedded: strings are lists of characters
(`Chars`), Python string methods become explicit recursive functions,
exceptions become `Except`, and external collaborators (network fetches,
the headless browser, the captions API, yt-dlp, html.unescape) are
abstracted into explicit environment records whose fields record the
outcome of each external call.  The MD5 content hash used for exact
deduplication is modelled by the hashed string itself (MD5 is treated as
collision-free on the inputs of interest).
-/
import Mathlib

set_option maxHeartbeats 1000000

/-! ## Basic character-list machinery (Python string primitives) -/


abbrev Chars := List Char

/-- Python `str.strip()` whitespace class, restricted to the ASCII
whitespace characters that Python treats as whitespace. -/
def isSpaceChar (c : Char) : Bool :=
  c == ' ' || c == '\t' || c == '\n' || c == '\r' || c == '\x0b' || c == '\x0c'

/-- Python `s.strip()`: drop whitespace from both ends. -/
def pstrip (s : Chars) : Chars :=
  ((s.dropWhile isSpaceChar).reverse.dropWhile isSpaceChar).reverse

/-- `hasPrefixC p s`: `s` starts with `p` (Python `s.startswith(p)`). -/
def hasPrefixC : Chars → Chars → Bool
  | [], _ => true
  | _ :: _, [] => false
  | p :: ps, c :: cs => p == c && hasPrefixC ps cs

/-- `hasSuffixC p s`: `s` ends with `p` (Python `s.endswith(p)`). -/
def hasSuffixC (p s : Chars) : Bool :=
  hasPrefixC p.reverse s.reverse

/-- `containsC p s`: `p` occurs as a contiguous substring of `s`
(Python `p in s`, also `re.search` for a literal pattern). -/
def containsC (p : Chars) : Chars → Bool
  | [] => hasPrefixC p []
  | c :: cs => hasPrefixC p (c :: cs) || containsC p cs

/-- `containsThenC p q s`: some occurrence of `p` in `s` is followed
(at or after its end) by an occurrence of `q`; this is `re.search`
for the pattern `p.*q` with `p`, `q` literal. -/
def containsThenC (p q : Chars) : Chars → Bool
  | [] => hasPrefixC p [] && containsC q []
  | c :: cs => (hasPrefixC p (c :: cs) && containsC q ((c :: cs).drop p.length))
      || containsThenC p q cs

/-- Python `s.split('\n')`: always returns at least one (possibly empty) line. -/
def splitLines : Chars → List Chars
  | [] => [[]]
  | c :: cs =>
    if c = '\n' then [] :: splitLines cs
    else
      match splitLines cs with
      | l :: ls => (c :: l) :: ls
      | [] => [[c]]

/-- Python `'\n'.join(lines)`. -/
def joinLines : List Chars → Chars
  | [] => []
  | [l] => l
  | l :: ls => l ++ '\n' :: joinLines ls

/-- Split at the first occurrence of `sep`; `none` when absent
(the piece after the separator). -/
def splitOnceC (sep : Char) : Chars → Chars × Option Chars
  | [] => ([], none)
  | c :: cs =>
    if c = sep then ([], some cs)
    else
      let r := splitOnceC sep cs
      (c :: r.1, r.2)

/-! ## Image component of the block-model parser
(`WebClipper._extract_naver_blog`, clippers.py lines 149-178)

The `se-image` branch reads
`img.get('src') or img.get('data-lazy-src') or img.get('data-src') or
img.get('data-original')` and then expands protocol-relative and
root-relative sources.  An absent attribute is `none`, a present one
`some value`; Python `or` skips falsy values (both `None` and `""`). -/

/-- The attributes of one `img.se-image-resource` element that the image
branch consults. -/
structure ImgAttrs where
  src : Option String
  dataLazySrc : Option String
  dataSrc : Option String
  dataOriginal : Option String

/-- Python `a or b` on optional strings: `a` unless it is falsy
(`None` or the empty string). -/
def pyOrS (a b : Option String) : Option String :=
  match a with
  | none => b
  | some s => if s = "" then b else some s

/-- The source's candidate selection:
`img.get('src') or img.get('data-lazy-src') or img.get('data-src') or
img.get('data-original')` (clippers.py line 153). -/
def selectImgSrc (a : ImgAttrs) : Option String :=
  pyOrS a.src (pyOrS a.dataLazySrc (pyOrS a.dataSrc a.dataOriginal))

/-- The `if img_src:` truthiness gate that guards the resolution code
(clippers.py line 154). -/
def imgSrcGate (o : Option String) : Option String :=
  match o with
  | none => none
  | some s => if s = "" then none else some s

/-- Scheme and network location of the page being parsed
(`urlparse(iframe_url)`). -/
structure PageOrigin where
  scheme : String
  netloc : String

/-- Python `s.startswith(p)` on `String`s, via the executable
character-list test. -/
def strStarts (p s : String) : Bool :=
  hasPrefixC p.data s.data

/-- The source's relative-source expansion (clippers.py lines 155-161):
`'//…'` gets a literal `https:` prefix, `'/…'` is expanded against the
page's scheme and host, anything else not starting with `http` goes
through `urljoin` (modelled as an opaque collaborator `uj`). -/
def resolveImgSrc (base : PageOrigin) (uj : String → String) (s : String) : String :=
  if strStarts "//" s then "https:" ++ s
  else if strStarts "/" s then base.scheme ++ "://" ++ base.netloc ++ s
  else if ¬ strStarts "http" s then uj s
  else s

/-- Modelled from the spec (§4.2 Image row): candidate priority with the
explicit lazy-load attribute first, then the main `src` attribute, then
the alternates.  Used only to exhibit that the code diverges from it. -/
def selectImgSrcSpecLazyFirst (a : ImgAttrs) : Option String :=
  pyOrS a.dataLazySrc (pyOrS a.src (pyOrS a.dataSrc a.dataOriginal))

/-- Declarative form of the code's priority: the first attribute value in
the list that is present and non-empty. -/
def firstNonEmpty : List (Option String) → Option String
  | [] => none
  | none :: rest => firstNonEmpty rest
  | some s :: rest => if s = "" then firstNonEmpty rest else some s

/-- An element carrying both a main `src` and a lazy-load source. -/
def imgAttrsBoth : ImgAttrs :=
  { src := some "https://postfiles.pstatic.net/main.png"
    dataLazySrc := some "https://postfiles.pstatic.net/lazy.png"
    dataSrc := none
    dataOriginal := none }

/-! ## Naver image URL rewrite
(`ImageProcessor.download_and_resize`, utils.py lines 117-138)

The Python code runs `urlparse` on the image URL and rebuilds it with
`urlunparse((scheme, netloc, path, '', 'type=w966', ''))` whenever the
URL string contains `pstatic.net` or `naver.com`.  `urlparse` /
`urlunparse` are modelled below for the guarded domain of the call:
strings that passed the `startswith(('http://', 'https://'))` check. -/

/-- The six components returned by Python `urlparse`. -/
structure PyUrl where
  scheme : Chars
  netloc : Chars
  path : Chars
  params : Chars
  query : Chars
  fragment : Chars

/-- Python `urllib.parse._splitparams`: split the parameter component at
the first `;` inside the last path segment. -/
def splitParams (p : Chars) : Chars × Chars :=
  if '/' ∈ p then
    let lastSeg := (p.reverse.takeWhile (· ≠ '/')).reverse
    let pre := p.take (p.length - lastSeg.length)
    match splitOnceC ';' lastSeg with
    | (a, some b) => (pre ++ a, b)
    | (_, none) => (p, [])
  else
    match splitOnceC ';' p with
    | (a, some b) => (a, b)
    | (_, none) => (p, [])

/-- `true` at the characters that end the network-location component. -/
def isNetlocEnd (c : Char) : Bool :=
  c == '/' || c == '?' || c == '#'

/-- Python `urlparse` modelled on its guarded domain here (URLs starting
with `http://` or `https://`): scheme before the first `:`, netloc up to
the first `/`, `?` or `#`, then fragment split before query split, and
params split out of the last path segment. -/
def urlparseHttp (url : Chars) : PyUrl :=
  let schemeRest := splitOnceC ':' url
  let scheme := schemeRest.1
  let rest1 := (schemeRest.2.getD []).drop 2
  let netloc := rest1.takeWhile (fun c => !isNetlocEnd c)
  let rest2 := rest1.dropWhile (fun c => !isNetlocEnd c)
  let fragSplit := splitOnceC '#' rest2
  let querySplit := splitOnceC '?' fragSplit.1
  let pathParams := splitParams querySplit.1
  { scheme := scheme
    netloc := netloc
    path := pathParams.1
    params := pathParams.2
    query := querySplit.2.getD []
    fragment := fragSplit.2.getD [] }

/-- Python `urlunparse` on a six-component tuple. -/
def urlunparseM (scheme netloc path params query fragment : Chars) : Chars :=
  let u1 := if params ≠ [] then path ++ ';' :: params else path
  let u2 :=
    if netloc ≠ [] ∨ hasPrefixC "//".data u1 then
      '/' :: '/' :: netloc ++ (if u1 ≠ [] ∧ ¬ hasPrefixC "/".data u1 then '/' :: u1 else u1)
    else u1
  let u3 := if scheme ≠ [] then scheme ++ ':' :: u2 else u2
  let u4 := if query ≠ [] then u3 ++ '?' :: query else u3
  if fragment ≠ [] then u4 ++ '#' :: fragment else u4

/-- The URL actually fetched by `ImageProcessor.download_and_resize`
(utils.py lines 121-138): `none` when the guard rejects the URL, else the
possibly-rewritten URL.  Both branches of the source's
`if '?type=' in image_url` build the same `clean_url`; the branch
structure is kept. -/
def imageFetchTarget (url : Chars) : Option Chars :=
  if ¬ (hasPrefixC "http://".data url || hasPrefixC "https://".data url) then none
  else if containsC "pstatic.net".data url || containsC "naver.com".data url then
    let p := urlparseHttp url
    let cleanUrl := urlunparseM p.scheme p.netloc p.path [] "type=w966".data []
    some (if containsC "?type=".data url then cleanUrl else cleanUrl)
  else some url

/-- The query part of a constructed URL (`?…` when a query is present). -/
def qpart : Option Chars → Chars
  | some qq => '?' :: qq
  | none => []

/-- The fragment part of a constructed URL (`#…` when present). -/
def fpart : Option Chars → Chars
  | some ff => '#' :: ff
  | none => []

/-- The scheme prefix of a well-formed absolute web URL. -/
def httpScheme (https : Bool) : Chars :=
  if https then "https".data else "http".data

/-- A well-formed absolute web URL assembled from its components. -/
def mkHttpUrl (https : Bool) (host path : Chars) (q f : Option Chars) : Chars :=
  httpScheme https ++ ':' :: '/' :: '/' :: (host ++ (path ++ (qpart q ++ fpart f)))

/-! ## YouTube clipper (`YouTubeClipper`, clippers.py lines 677-1021)

External collaborators are abstracted into a `YtEnv` record: each field
records the outcome of one external call (headless browser run,
youtube-transcript-api call, yt-dlp subtitle lookup, yt-dlp metadata
lookup, the `requests.head` thumbnail probe).  The control flow between
those calls is modelled faithfully. -/

/-- The regex character class `[a-zA-Z0-9_-]` of `extract_video_id`. -/
def isIdChar (c : Char) : Bool :=
  c.isAlpha || c.isDigit || c == '_' || c == '-'

/-- `([a-zA-Z0-9_-]{11})` continuing a match: the next 11 characters when
they all lie in the class. -/
def matchIdAfter (s : Chars) : Option Chars :=
  if (s.take 11).length = 11 ∧ (s.take 11).all isIdChar = true
  then some (s.take 11) else none

/-- Try each alternative prefix of the pattern at the current position,
in order, completing it with the 11-character id group. -/
def tryAltsAt : List Chars → Chars → Option Chars
  | [], _ => none
  | alt :: rest, s =>
    match (if hasPrefixC alt s then matchIdAfter (s.drop alt.length) else none) with
    | some i => some i
    | none => tryAltsAt rest s

/-- `re.search` for `(alt1|alt2|…)([a-zA-Z0-9_-]{11})`: leftmost position
wins, alternatives tried in order at each position. -/
def searchVid (alts : List Chars) : Chars → Option Chars
  | [] => tryAltsAt alts []
  | c :: cs =>
    match tryAltsAt alts (c :: cs) with
    | some i => some i
    | none => searchVid alts cs

/-- `YouTubeClipper.extract_video_id` (clippers.py lines 684-692): first
the pattern `(?:youtube\.com/watch?v=|youtu\.be/)([a-zA-Z0-9_-]{11})`,
then `youtube\.com/embed/([a-zA-Z0-9_-]{11})`. -/
def extractVideoId (url : Chars) : Option Chars :=
  match searchVid ["youtube.com/watch?v=".data, "youtu.be/".data] url with
  | some i => some i
  | none => searchVid ["youtube.com/embed/".data] url

/-- One cue returned by the captions API (`transcript_data` items); the
fractional part of the float start time is immaterial to the claims and
starts are modelled as whole seconds. -/
structure ApiCue where
  start : Nat
  text : String

/-- The result dict built by `_extract_via_browser`; the function
catches every exception internally and always returns such a record. -/
structure BrowserData where
  title : String
  channel : String
  description : String
  transcript : Option String
  success : Bool

/-- Outcomes of the external calls made during one video extraction. -/
structure YtEnv where
  /-- `_extract_via_browser` result (never raises). -/
  browser : BrowserData
  /-- youtube-transcript-api: the fetched cue list, or any raised
  exception (tier failure). -/
  apiOutcome : Except Unit (List ApiCue)
  /-- the whole yt-dlp subtitle branch: raised exception, or
  `some text` when a subtitle track was found, fetched and parsed,
  or `none` when no track/URL/200-response was found. -/
  ytdlpOutcome : Except Unit (Option String)
  /-- `extract_metadata` outcome (it catches internally). -/
  metaTitle : String
  metaChannel : String
  metaDescription : String
  /-- `requests.head` in `get_thumbnail_url`: the status code, or a
  raised network error. -/
  thumbHead : Except Unit Nat

/-- The three caption-acquisition strategies of the spec. -/
inductive Tier
  | browser
  | api
  | ytdlp
deriving DecidableEq

/-- The typed errors that can escape the two extraction entry points. -/
inductive ClipError
  | videoIdNotFound
  | thumbProbeFailed
  | fallbackFailed
deriving DecidableEq

/-- Python `f"{n:02d}"` for the non-negative values produced here. -/
def two0 (n : Nat) : String :=
  if n < 10 then "0" ++ toString n else toString n

/-- The `[MM:SS] text` transcript formatting of the captions-API tier
(clippers.py lines 743-752). -/
def formatCues (cues : List ApiCue) : String :=
  String.intercalate "\n" (cues.map fun c =>
    "[" ++ two0 (c.start / 60) ++ ":" ++ two0 (c.start % 60) ++ "] " ++ c.text)

/-- `extract_transcript` (clippers.py lines 707-805) with an attempted-
tier trace: the captions-API tier, then on exception the yt-dlp tier.
An API tier that returns an empty cue list still returns successfully
(with the empty string), so the yt-dlp tier runs only on exception. -/
def extractTranscriptT (env : YtEnv) : (Option String × Bool) × List Tier :=
  match env.apiOutcome with
  | .ok cues => ((some (formatCues cues), true), [Tier.api])
  | .error _ =>
    match env.ytdlpOutcome with
    | .ok (some text) => ((some text, true), [Tier.api, Tier.ytdlp])
    | .ok none => ((none, false), [Tier.api, Tier.ytdlp])
    | .error _ => ((none, false), [Tier.api, Tier.ytdlp])

/-- `get_thumbnail_url` (clippers.py lines 694-698): an uncaught
`requests.head` failure propagates. -/
def getThumbnailUrl (env : YtEnv) (vid : String) : Except Unit String :=
  match env.thumbHead with
  | .error e => .error e
  | .ok code =>
      .ok (if code = 200 then "https://img.youtube.com/vi/" ++ vid ++ "/maxresdefault.jpg"
           else "https://img.youtube.com/vi/" ++ vid ++ "/hqdefault.jpg")

/-- The extraction result dict of `YouTubeClipper.extract_content`. -/
structure YtResult where
  title : String
  channel : String
  content : String
  videoId : String
  url : String
  ctype : String
  hasTranscript : Bool

/-- The no-transcript body (clippers.py lines 1007-1011). -/
def noTranscriptBody (desc : String) : String :=
  "## 안내\n\n" ++ "자막을 추출할 수 없습니다. 향후 요약을 위해서는 자막이 필요합니다.\n\n"
    ++ (if desc ≠ "" then "### 동영상 설명\n\n" ++ desc else "")

/-- The tail of `extract_content` after the tier branch (clippers.py
lines 998-1021): thumbnail probe, then content assembly. -/
def ytAssemble (env : YtEnv) (vid url title channel desc : String)
    (transcript : Option String) (hasT : Bool) : Except ClipError YtResult :=
  match getThumbnailUrl env vid with
  | .error _ => .error .thumbProbeFailed
  | .ok thumbUrl =>
      .ok { title := title
            channel := channel
            content :=
              (if thumbUrl ≠ "" then "![Thumbnail](" ++ thumbUrl ++ ")\n" else "")
                ++ (match transcript with
                    | some t => if t ≠ "" then "## 자막\n\n" ++ t else noTranscriptBody desc
                    | none => noTranscriptBody desc)
            videoId := vid
            url := url
            ctype := "youtube"
            hasTranscript := hasT }

/-- `YouTubeClipper.extract_content` (clippers.py lines 980-1021) with an
attempted-caption-tier trace: ID extraction (raising on failure), then
the browser tier, then on browser failure `extract_metadata` and
`extract_transcript`. -/
def ytExtractContentT (env : YtEnv) (url : Chars) : Except ClipError YtResult × List Tier :=
  match extractVideoId url with
  | none => (.error .videoIdNotFound, [])
  | some vid =>
    if env.browser.success then
      (ytAssemble env (String.mk vid) (String.mk url) env.browser.title env.browser.channel
        env.browser.description env.browser.transcript true, [Tier.browser])
    else
      let tt := extractTranscriptT env
      (ytAssemble env (String.mk vid) (String.mk url) env.metaTitle env.metaChannel
        env.metaDescription tt.1.1 tt.1.2, Tier.browser :: tt.2)

/-- The value returned (or error raised) by `extract_content`. -/
def ytExtractContent (env : YtEnv) (url : Chars) : Except ClipError YtResult :=
  (ytExtractContentT env url).1

/-- The caption tiers attempted during one `extract_content` call,
in order. -/
def ytTiersAttempted (env : YtEnv) (url : Chars) : List Tier :=
  (ytExtractContentT env url).2

/-! ## Web clipper (`WebClipper`, clippers.py lines 20-675)

As for the video side, external calls are abstracted into a `WebEnv`
record and the control flow between them is modelled faithfully. -/

/-- `str.replace(pat, rep)` with fuel (the fuel `s.length` always
suffices because a successful non-empty match consumes at least one
character). -/
def replaceAllGo (pat rep : Chars) : Nat → Chars → Chars
  | _, [] => []
  | 0, s => s
  | fuel + 1, c :: cs =>
    if hasPrefixC pat (c :: cs) then
      rep ++ replaceAllGo pat rep fuel ((c :: cs).drop pat.length)
    else
      c :: replaceAllGo pat rep fuel cs

/-- Python `s.replace(pat, rep)` for a non-empty pattern. -/
def replaceAllC (pat rep s : Chars) : Chars :=
  if pat = [] then s else replaceAllGo pat rep s.length s

/-- `WebClipper._normalize_naver_url` (clippers.py lines 27-36). -/
def normalizeNaverUrl (url : Chars) : Chars :=
  if containsC "m.blog.naver.com".data url then
    replaceAllC "m.blog.naver.com".data "blog.naver.com".data url
  else url

/-- The host classification of `WebClipper.extract_content`
(clippers.py lines 412-414). -/
def isNaverBlogUrl (url : Chars) : Bool :=
  let netloc := (urlparseHttp url).netloc
  netloc == "blog.naver.com".data || netloc == "m.blog.naver.com".data
    || containsC "blog.naver.com".data netloc

/-- The extraction result dict of the article path. -/
structure ClipResultW where
  title : String
  content : String
  url : String
  ctype : String
  htmlContent : String

/-- Outcomes of the external calls made during one article extraction.
The bodies of `_extract_naver_blog`'s and `_fallback_extract`'s `try`
blocks are whole network-and-DOM computations; each is abstracted to its
outcome (a result, or a raised exception with its message). -/
structure WebEnv where
  /-- `trafilatura.fetch_url`: `None` on download failure. -/
  trafFetch : Option String
  /-- `trafilatura.extract`: `None` or the extracted markdown. -/
  trafExtract : Option String
  /-- `trafilatura.extract_metadata(...).title`. -/
  metaTitle : Option String
  /-- `_process_images` applied to the markdown (image fetching and
  rewriting abstracted as a function of the markdown). -/
  processImages : String → String
  /-- the auxiliary-HTML mirror produced by the inner `try` of the
  generic path; that block catches all its exceptions, so it is
  abstracted to its resulting string (possibly empty). -/
  htmlMirror : String
  /-- the body of `_extract_naver_blog`'s `try` (clippers.py lines
  74-231): a result, or the raised exception's message. -/
  naverBody : Except String ClipResultW
  /-- the body of `_fallback_extract`'s `try` (clippers.py lines
  594-673): a result, or the raised exception's message. -/
  fallbackBody : Except String ClipResultW

/-- `WebClipper._fallback_extract` (clippers.py lines 593-675): on any
internal failure it raises a wrapped exception. -/
def fallbackExtract (env : WebEnv) : Except ClipError ClipResultW :=
  match env.fallbackBody with
  | .ok r => .ok r
  | .error _ => .error .fallbackFailed

/-- `WebClipper._extract_naver_blog` (clippers.py lines 72-245): its
`try` body, on failure `_fallback_extract`, and if that also raises a
minimal result whose body is an explicit failure message.  Total. -/
def extractNaverBlog (env : WebEnv) (url : Chars) : ClipResultW :=
  match env.naverBody with
  | .ok r => r
  | .error e =>
    match env.fallbackBody with
    | .ok r => r
    | .error _ =>
      { title := "Untitled"
        content := "추출 실패: " ++ e
        url := String.mk url
        ctype := "article"
        htmlContent := "" }

/-- The metadata title fallback of the generic path (clippers.py
line 442): `metadata.title if metadata and metadata.title else
"Untitled"`. -/
def titleOrUntitled (t : Option String) : String :=
  match t with
  | some s => if s = "" then "Untitled" else s
  | none => "Untitled"

/-- `WebClipper.extract_content` (clippers.py lines 410-473): Naver
dispatch, else the trafilatura primary tier with the 100-character
minimum, falling back to `_fallback_extract` on any failure of the
primary tier.  The fallback's exception is not caught here and
propagates to the caller. -/
def webExtractContent (env : WebEnv) (url : Chars) : Except ClipError ClipResultW :=
  if isNaverBlogUrl url then
    .ok (extractNaverBlog env (normalizeNaverUrl url))
  else
    match env.trafFetch with
    | none => fallbackExtract env
    | some _ =>
      match env.trafExtract with
      | none => fallbackExtract env
      | some article =>
        if article.length < 100 then fallbackExtract env
        else
          .ok { title := titleOrUntitled env.metaTitle
                content := env.processImages article
                url := String.mk url
                ctype := "article"
                htmlContent := env.htmlMirror }

/-- `true` exactly on raised (`error`) outcomes. -/
def isErrorE {ε α : Type} : Except ε α → Bool
  | .error _ => true
  | .ok _ => false

/-- The primary (trafilatura) tier fails: download failed, extraction
returned nothing, or the text is shorter than 100 characters. -/
def webPrimaryFails (env : WebEnv) : Bool :=
  match env.trafFetch with
  | none => true
  | some _ =>
    match env.trafExtract with
    | none => true
    | some article => decide (article.length < 100)

/-- An environment in which every external collaborator succeeds: the
browser finds a transcript, the captions API answers, yt-dlp answers,
and the thumbnail probe returns 200. -/
def ytEnvAllOk : YtEnv :=
  { browser := { title := "A video", channel := "A channel", description := "desc"
                 transcript := some "[0:00] hello", success := true }
    apiOutcome := .ok [⟨0, "hello"⟩]
    ytdlpOutcome := .ok (some "[00:00:00] hello")
    metaTitle := "A video"
    metaChannel := "A channel"
    metaDescription := "desc"
    thumbHead := .ok 200 }

/-- A recognized video URL. -/
def urlYtShort : Chars := "https://youtu.be/abcdefghijk".data

/-- An environment in which the page download of the primary article
tier and the whole DOM-walk fallback both fail. -/
def webEnvBothFail : WebEnv :=
  { trafFetch := none
    trafExtract := none
    metaTitle := none
    processImages := id
    htmlMirror := ""
    naverBody := .error "download failed"
    fallbackBody := .error "connection reset" }

/-- A generic (non-Naver) article URL. -/
def urlGeneric : Chars := "https://example.com/post/1".data

/-- An environment in which the primary tier extracts only 50 characters
of text and the DOM-walk fallback succeeds. -/
def webEnvShortArticle : WebEnv :=
  { trafFetch := some "<html><body>page</body></html>"
    trafExtract := some "only fifty characters of extracted article text xx"
    metaTitle := some "A title"
    processImages := id
    htmlMirror := ""
    naverBody := .error "not naver"
    fallbackBody := .ok { title := "A title"
                          content := "fallback body text"
                          url := "https://example.com/post/1"
                          ctype := "article"
                          htmlContent := "" } }

/-! ## Noise filter and deduplicator
(`WebClipper._clean_naver_messages`, clippers.py lines 507-591)

The filter is five passes over the line structure of the text:
1. blank collapsing + MD5 exact dedup + boilerplate-pattern removal,
2. string-level `\n{3,}` collapse, `strip()`, and the DOTALL
   `작성하신\s*\*+.*?댓글\d+` merge substitution,
3. consecutive/echo duplicate removal,
4. the near-duplicate similarity pass.
The MD5 hash set is modelled by a set (list) of the stripped lines
themselves. -/

/-- Characters as lowercased by `re.IGNORECASE` matching; Korean
characters are untouched, ASCII letters are lowered. -/
def toLowerC (s : Chars) : Chars :=
  s.map Char.toLower

/-- Python `s.isdigit()` (ASCII digits suffice for the inputs here). -/
def allDigits (s : Chars) : Bool :=
  !s.isEmpty && s.all Char.isDigit

/-- `re.search(r'^\s*\|+\s*$', line)`: optional whitespace, one or more
pipes, optional whitespace, covering the whole line. -/
def pipeOnlyLine (s : Chars) : Bool :=
  let t := s.dropWhile isSpaceChar
  !(t.takeWhile (· == '|')).isEmpty && (t.dropWhile (· == '|')).all isSpaceChar

/-- The plain-substring members of `remove_patterns` (each has no regex
metacharacter, so `re.search` is substring containment). -/
def plainPatterns : List Chars :=
  [ "저작권 침해가 우려되는".data
  , "글보내기 기능을 제한합니다".data
  , "네이버는 블로그를 통해".data
  , "저작물이 무단으로 공유되는 것을 막기 위해".data
  , "저작권을 침해하는 컨텐츠가 포함되어 있는".data
  , "상세한 안내를 받고 싶으신 경우".data
  , "네이버 고객센터로 문의주시면".data
  , "건강한 인터넷 환경을 만들어 나갈 수 있도록".data
  , "고객님의 많은 관심과 협조를 부탁드립니다".data
  , "메뉴 바로가기".data
  , "본문 바로가기".data
  , "다른 표현을 사용해주시기 바랍니다".data
  , "건전한 인터넷 문화 조성을 위해".data
  , "회원님의 적극적인 협조를 부탁드립니다".data
  , "더 궁금하신 사항은 고객센터로 문의하시면".data
  , "안녕하세요. 오랜만입니다. 향후 이 시리즈로".data ]

/-- `re.search` of the `remove_patterns` list against the stripped line
(case-insensitively, via lowercasing). -/
def removePatternHit (st : Chars) : Bool :=
  let low := toLowerC st
  plainPatterns.any (fun p => containsC p low)
    || containsThenC "작성하신".data "이용자들의 신고가 많은 표현이 포함".data low
    || low == "## 블로그".data
    || (hasPrefixC "댓글".data low && allDigits (low.drop "댓글".data.length))
    || pipeOnlyLine low
    || containsThenC "blog.naver.com".data "...".data low

/-- The short-pipe-row check (clippers.py lines 543-545). -/
def pipeRowNoise (st : Chars) : Bool :=
  hasPrefixC "|".data st && decide (st.length < 50)
    && containsC "|".data (st.drop 1)
    && decide (2 ≤ (st.filter (· == '|')).length)

/-- The bare-blog-link check (clippers.py lines 547-549). -/
def naverLinkNoise (st : Chars) : Bool :=
  containsC "blog.naver.com".data st && decide (st.length < 100)
    && (containsC "...".data st || hasSuffixC "blog.naver.com".data st)

/-- `should_remove` for a stripped non-blank line. -/
def shouldRemove (st : Chars) : Bool :=
  removePatternHit st || pipeRowNoise st || naverLinkNoise st

/-- The first loop of `_clean_naver_messages` (clippers.py lines
524-552): blank lines are emitted as empty lines unless the previously
emitted line was blank; a non-blank line is dropped when its stripped
hash was seen, recorded as seen, dropped when `should_remove` or the
structural checks hit, and otherwise emitted unchanged. -/
def cleanPass1Go (seen : List Chars) (lastBlank : Bool) : List Chars → List Chars
  | [] => []
  | l :: ls =>
    if pstrip l = [] then
      if lastBlank then cleanPass1Go seen true ls
      else [] :: cleanPass1Go seen true ls
    else
      if pstrip l ∈ seen then cleanPass1Go seen lastBlank ls
      else if shouldRemove (pstrip l) then cleanPass1Go (pstrip l :: seen) lastBlank ls
      else l :: cleanPass1Go (pstrip l :: seen) false ls

/-- Pass 1 with the loop's initial state. -/
def cleanPass1 (ls : List Chars) : List Chars :=
  cleanPass1Go [] false ls

/-- `re.sub(r'\n{3,}', '\n\n', s)`: each maximal run of three or more
newlines keeps its first two. -/
def collapseNlGo (nlRun : Nat) : Chars → Chars
  | [] => []
  | c :: cs =>
    if c = '\n' then
      if 2 ≤ nlRun then collapseNlGo nlRun cs
      else '\n' :: collapseNlGo (nlRun + 1) cs
    else c :: collapseNlGo 0 cs

/-- The `\n{3,}` collapse applied to a whole string. -/
def collapseNl (s : Chars) : Chars :=
  collapseNlGo 0 s

/-- The lazy tail `.*?댓글\d+` of the merge pattern: earliest occurrence
of `댓글` followed by at least one digit, consuming the maximal digit
run; returns the remainder after the match. -/
def findDg : Chars → Option Chars
  | [] => none
  | c :: cs =>
    if hasPrefixC "댓글".data (c :: cs) then
      if !(((c :: cs).drop 2).takeWhile Char.isDigit).isEmpty then
        some (((c :: cs).drop 2).dropWhile Char.isDigit)
      else findDg cs
    else findDg cs

/-- A match of `작성하신\s*\*+.*?댓글\d+` (DOTALL) starting exactly at
the head of `s`: the remainder after the match, or `none`.  The greedy
`\s*` and `\*+` are deterministic here because no whitespace character
is `*`. -/
def mergeMatchAt (s : Chars) : Option Chars :=
  if hasPrefixC "작성하신".data s then
    if !(((s.drop 4).dropWhile isSpaceChar).takeWhile (· == '*')).isEmpty then
      findDg (((s.drop 4).dropWhile isSpaceChar).dropWhile (· == '*'))
    else none
  else none

/-- `re.sub` with the merge pattern and empty replacement, scanning left
to right and resuming after each match.  Fuel `s.length` always
suffices: a match consumes at least the four pattern-head characters. -/
def mergeSubGo : Nat → Chars → Chars
  | _, [] => []
  | 0, s => s
  | fuel + 1, c :: cs =>
    match mergeMatchAt (c :: cs) with
    | some rest => mergeSubGo fuel rest
    | none => c :: mergeSubGo fuel cs

/-- `re.sub(r'작성하신\s*\*+.*?댓글\d+', '', s, flags=re.DOTALL)`. -/
def mergeSub (s : Chars) : Chars :=
  mergeSubGo s.length s

/-- The consecutive/echo duplicate loop (clippers.py lines 559-570):
drop a non-blank line equal to the previous stripped line, or equal to
the one before that across a blank line. -/
def dedupPass3Go (prev prevPrev : Option Chars) : List Chars → List Chars
  | [] => []
  | l :: ls =>
    if pstrip l ≠ [] ∧ prev = some (pstrip l) then
      dedupPass3Go prev prevPrev ls
    else if pstrip l ≠ [] ∧ prevPrev = some (pstrip l) ∧ prev = some [] then
      dedupPass3Go prev prevPrev ls
    else l :: dedupPass3Go (some (pstrip l)) prev ls

/-- Pass 3 with the loop's initial `None` state. -/
def dedupPass3 (ls : List Chars) : List Chars :=
  dedupPass3Go none none ls

/-- The distinct characters of a line (Python `set(...)`). -/
def charSet (s : Chars) : Chars :=
  s.dedup

/-- `len(set(a) & set(b))`. -/
def interCount (a b : Chars) : Nat :=
  ((charSet a).filter (fun c => c ∈ charSet b)).length

/-- `max(len(set(cur)), len(set(prev)), 1)`, the denominator of the
code's similarity. -/
def maxDen (cur prev : Chars) : Nat :=
  max (charSet cur).length (max (charSet prev).length 1)

/-- The code's similarity test
`len(set(cur) & set(prev)) / max(len(set(cur)), len(set(prev)), 1) > 0.9`
as the exact integer comparison `10·|∩| > 9·max(|A|, |B|, 1)`; for the
character-set sizes reachable here the float comparison coincides with
the exact one. -/
def simOver (cur prev : Chars) : Bool :=
  decide (9 * maxDen cur prev < 10 * interCount cur prev)

/-- The drop test of the near-duplicate loop against the recently kept
lines (clippers.py lines 581-587). -/
def nearDupDrop (kept5 : List Chars) (cur : Chars) : Bool :=
  kept5.any fun p =>
    !(pstrip p).isEmpty && decide (20 < (pstrip p).length)
      && simOver (pstrip cur) (pstrip p)

/-- The near-duplicate loop (clippers.py lines 574-589); `acc` is the
kept-lines list in reverse, so `acc.take 5` is `final_lines[-5:]`.
Blank lines are always kept. -/
def nearDupGo (acc : List Chars) : List Chars → List Chars
  | [] => []
  | l :: ls =>
    if pstrip l = [] then l :: nearDupGo (l :: acc) ls
    else if nearDupDrop (acc.take 5) l then nearDupGo acc ls
    else l :: nearDupGo (l :: acc) ls

/-- Pass 4 (the near-duplicate suppression pass). -/
def nearDupPass (ls : List Chars) : List Chars :=
  nearDupGo [] ls

/-- Intermediate value after pass 1 rejoined to a string. -/
def cleanR1 (s : Chars) : Chars :=
  joinLines (cleanPass1 (splitLines s))

/-- After the `\n{3,}` collapse. -/
def cleanR2 (s : Chars) : Chars :=
  collapseNl (cleanR1 s)

/-- After `strip()`. -/
def cleanR3 (s : Chars) : Chars :=
  pstrip (cleanR2 s)

/-- After the merge substitution. -/
def cleanR4 (s : Chars) : Chars :=
  mergeSub (cleanR3 s)

/-- After the consecutive/echo duplicate pass rejoined to a string. -/
def cleanR5 (s : Chars) : Chars :=
  joinLines (dedupPass3 (splitLines (cleanR4 s)))

/-- `WebClipper._clean_naver_messages` (clippers.py lines 507-591). -/
def cleanNaverMessages (s : Chars) : Chars :=
  joinLines (nearDupPass (splitLines (cleanR5 s)))

/-- The non-blank lines of a line list, stripped. -/
def nbStrips (o : List Chars) : List Chars :=
  (o.filter (fun l => !(pstrip l).isEmpty)).map pstrip

/-- `true` when the line list contains three consecutive blank lines. -/
def hasThreeBlankRun : List Chars → Bool
  | a :: b :: c :: rest =>
    ((pstrip a).isEmpty && (pstrip b).isEmpty && (pstrip c).isEmpty)
      || hasThreeBlankRun (b :: c :: rest)
  | _ => false

/-- Modelled from the spec (§4.4 step 5): the near-duplicate pass as the
spec words it — only non-blank lines longer than 20 characters are
compared, against the last 5 kept lines, with character-set Jaccard
similarity (intersection size over union size) exceeding 0.9.  Used only
to exhibit the divergence from the code. -/
def specNearDupGo (acc : List Chars) : List Chars → List Chars
  | [] => []
  | l :: ls =>
    if pstrip l = [] then l :: specNearDupGo (l :: acc) ls
    else if decide (20 < (pstrip l).length) && (acc.take 5).any (fun p =>
        (9 : ℚ) / 10 < (interCount (pstrip l) (pstrip p) : ℚ) /
          (((charSet (pstrip l)).length : ℚ) + ((charSet (pstrip p)).length : ℚ)
            - (interCount (pstrip l) (pstrip p) : ℚ))) then
      specNearDupGo acc ls
    else l :: specNearDupGo (l :: acc) ls

/-- The spec-worded near-duplicate pass. -/
def specNearDupPass (ls : List Chars) : List Chars :=
  specNearDupGo [] ls

/-- The code's near-duplicate drop rule restated over exact rationals:
similarity is intersection size over the maximum of the two set sizes
(floored at one), every non-blank line is tested (no length condition on
the line itself), and only previously kept lines whose stripped length
exceeds 20 participate. -/
def ratioNearDupGo (acc : List Chars) : List Chars → List Chars
  | [] => []
  | l :: ls =>
    if pstrip l = [] then l :: ratioNearDupGo (l :: acc) ls
    else if (acc.take 5).any (fun p =>
        !(pstrip p).isEmpty && decide (20 < (pstrip p).length)
          && decide ((9 : ℚ) / 10 < (interCount (pstrip l) (pstrip p) : ℚ) /
              (maxDen (pstrip l) (pstrip p) : ℚ))) then
      ratioNearDupGo acc ls
    else l :: ratioNearDupGo (l :: acc) ls

/-- The rational-arithmetic reading of the code's near-duplicate pass. -/
def ratioNearDupPass (ls : List Chars) : List Chars :=
  ratioNearDupGo [] ls

/-- A line of 22 distinct characters. -/
def lineP22 : Chars := "abcdefghijklmnopqrstuv".data

/-- A line of 21 distinct characters, a subset of `lineP22`. -/
def lineX21 : Chars := "abcdefghijklmnopqrstu".data

/-- A line of exactly 20 characters, a subset of `lineP22`. -/
def lineY20 : Chars := "abcdefghijklmnopqrst".data

/-- The declarative shape of a recognized video URL: one of the three
literal prefixes followed by exactly eleven identifier characters. -/
def SpecVidMatch (url : Chars) : Prop :=
  ∃ pre vid post, vid.length = 11 ∧ vid.all isIdChar = true ∧
    (url = pre ++ ("youtube.com/watch?v=".data ++ (vid ++ post)) ∨
     url = pre ++ ("youtu.be/".data ++ (vid ++ post)) ∨
     url = pre ++ ("youtube.com/embed/".data ++ (vid ++ post)))

/-- A document whose near-duplicate pass deletes similar lines between
isolated blank lines. -/
def docSimilarRuns : Chars :=
  "abcdefghijklmnopqrstuv\n\nabcdefghijklmnopqrstu\n\nabcdefghijklmnopqrst\n\nfin".data

/-- The same shape of document used for the blank-run counterexample. -/
def docSimilarRunsB : Chars :=
  "abcdefghijklmnopqrstuv\n\nabcdefghijklmnopqrstu\n\nabcdefghijklmnopqrst\n\nend".data

/-- A small document on which all the intermediate passes are no-ops. -/
def docPlain : Chars :=
  "first interesting line\n\nsecond quite different".data

/-! ## WebVTT caption chunker
(`YouTubeClipper._parse_webvtt` and `_time_to_seconds`, clippers.py
lines 807-860)

`html.unescape` is an external library call and is abstracted as a
function parameter `u`; the theorems hold for every choice of it. -/

/-- The `\d{2}:\d{2}:\d{2}` shape test anchored at the head of `s`
(ASCII digits). -/
def timeAt (s : Chars) : Option Chars :=
  match s with
  | h1 :: h2 :: c1 :: m1 :: m2 :: c2 :: s1 :: s2 :: _ =>
    if h1.isDigit && h2.isDigit && c1 == ':' && m1.isDigit && m2.isDigit
        && c2 == ':' && s1.isDigit && s2.isDigit then
      some [h1, h2, c1, m1, m2, c2, s1, s2]
    else none
  | _ => none

/-- `re.search(r'(\d{2}:\d{2}:\d{2})', line)`: the leftmost match. -/
def findTime : Chars → Option Chars
  | [] => none
  | c :: cs =>
    match timeAt (c :: cs) with
    | some t => some t
    | none => findTime cs

/-- `_time_to_seconds` applied to the matched `HH:MM:SS` group. -/
def timeToSeconds (t : Chars) : Int :=
  match t with
  | [h1, h2, _, m1, m2, _, s1, s2] =>
    (((h1.toNat - '0'.toNat) * 10 + (h2.toNat - '0'.toNat)) * 3600
      + ((m1.toNat - '0'.toNat) * 10 + (m2.toNat - '0'.toNat)) * 60
      + ((s1.toNat - '0'.toNat) * 10 + (s2.toNat - '0'.toNat)) : Nat)
  | _ => 0

/-- The remainder after the first `>` in `s`, when one exists. -/
def findGt : Chars → Option Chars
  | [] => none
  | c :: cs => if c = '>' then some cs else findGt cs

/-- `re.sub(r'<[^>]+>', '', s)` with fuel (`s.length` always suffices:
every step consumes at least one character). -/
def stripTagsGo : Nat → Chars → Chars
  | _, [] => []
  | 0, s => s
  | fuel + 1, c :: cs =>
    if c = '<' then
      match cs with
      | [] => ['<']
      | d :: ds =>
        if d = '>' then '<' :: stripTagsGo fuel cs
        else
          match findGt (d :: ds) with
          | some rest => stripTagsGo fuel rest
          | none => c :: stripTagsGo fuel cs
    else c :: stripTagsGo fuel cs

/-- `re.sub(r'<[^>]+>', '', s)`. -/
def stripTags (s : Chars) : Chars :=
  stripTagsGo s.length s

/-- `re.sub(r'^[>\s\-]+', '', s)`: drop the leading run of `>`,
whitespace and `-`. -/
def dropLeadJunk (s : Chars) : Chars :=
  s.dropWhile (fun c => c == '>' || isSpaceChar c || c == '-')

/-- `" ".join(chunk)`. -/
def joinSpaces : List Chars → Chars
  | [] => []
  | [x] => x
  | x :: xs => x ++ ' ' :: joinSpaces xs

/-- `clean_text[-1] in ['.', '?', '!']` (the caller guarantees a
non-empty string; an empty one tests false here where Python would not
reach the test). -/
def lastCharPunct (t : Chars) : Bool :=
  match t.getLast? with
  | some ch => ch == '.' || ch == '?' || ch == '!'
  | none => false

/-- One emitted caption chunk.  `label` and `text` are what the source
emits; `startSec`/`endSec` record the loop's `chunk_start_seconds` and
`current_seconds` at emission time, for specification purposes. -/
structure VttChunk where
  label : Chars
  text : Chars
  startSec : Int
  endSec : Int
deriving DecidableEq

/-- The loop state of `_parse_webvtt`. -/
structure VttState where
  finalOutput : List VttChunk
  currentChunk : List Chars
  chunkStartSeconds : Int
  currentSeconds : Int
  chunkStartLabel : Chars
  seen : List Chars
  isBodyStarted : Bool

/-- The loop's initial state (clippers.py lines 813-821). -/
def vttInit : VttState :=
  { finalOutput := []
    currentChunk := []
    chunkStartSeconds := 0
    currentSeconds := 0
    chunkStartLabel := "00:00:00".data
    seen := []
    isBodyStarted := false }

/-- The timestamp update at the top of the loop body (clippers.py lines
828-835): any line carrying a `HH:MM:SS` match advances
`current_seconds`, marks the body started, and fixes the chunk start
when the buffer is empty (the start label only changes there). -/
def vttTimeUpd (st : VttState) (line : Chars) : VttState :=
  match findTime line with
  | some ts =>
    { st with
      currentSeconds := timeToSeconds ts
      isBodyStarted := true
      chunkStartLabel := if st.currentChunk.isEmpty then ts else st.chunkStartLabel
      chunkStartSeconds :=
        if st.currentChunk.isEmpty then timeToSeconds ts else st.chunkStartSeconds }
  | none => st

/-- The skip test (clippers.py line 837). -/
def vttSkip (st : VttState) (line : Chars) : Bool :=
  line.isEmpty || hasPrefixC "WEBVTT".data line || containsC "-->".data line
    || allDigits line || !st.isBodyStarted

/-- Appending one unique cleaned text line and possibly closing the
chunk (clippers.py lines 844-854). -/
def vttAppend (st : VttState) (ct : Chars) : VttState :=
  let st2 := { st with currentChunk := st.currentChunk ++ [ct], seen := ct :: st.seen }
  if 20 ≤ st2.currentSeconds - st2.chunkStartSeconds then
    if lastCharPunct ct = true ∨ 40 ≤ st2.currentSeconds - st2.chunkStartSeconds then
      { st2 with
        finalOutput := st2.finalOutput ++
          [{ label := st2.chunkStartLabel
             text := joinSpaces st2.currentChunk
             startSec := st2.chunkStartSeconds
             endSec := st2.currentSeconds }]
        currentChunk := []
        chunkStartSeconds := st2.currentSeconds }
    else st2
  else st2

/-- One iteration of the `_parse_webvtt` loop on a raw line; `u` is the
`html.unescape` collaborator. -/
def vttStep (u : Chars → Chars) (st : VttState) (rawLine : Chars) : VttState :=
  let line := pstrip rawLine
  let st1 := vttTimeUpd st line
  if vttSkip st1 line then st1
  else
    let cleanText := pstrip (dropLeadJunk (pstrip (stripTags (u line))))
    if ¬ cleanText.isEmpty = true ∧ cleanText ∉ st1.seen then vttAppend st1 cleanText
    else st1

/-- The whole loop over the document's lines. -/
def vttRun (u : Chars → Chars) (lines : List Chars) : VttState :=
  lines.foldl (vttStep u) vttInit

/-- The emitted chunk sequence: the loop's output plus the final flush
of a non-empty buffer (clippers.py lines 856-858). -/
def vttChunks (u : Chars → Chars) (lines : List Chars) : List VttChunk :=
  let st := vttRun u lines
  st.finalOutput ++
    (if st.currentChunk.isEmpty then []
     else [{ label := st.chunkStartLabel
             text := joinSpaces st.currentChunk
             startSec := st.chunkStartSeconds
             endSec := st.currentSeconds }])

/-- Join with a separator string. -/
def joinWith (sep : Chars) : List Chars → Chars
  | [] => []
  | [x] => x
  | x :: xs => x ++ sep ++ joinWith sep xs

/-- `_parse_webvtt` (clippers.py lines 811-860): the chunk sequence
rendered as `[label] text` paragraphs joined by blank lines. -/
def parseWebVtt (u : Chars → Chars) (s : Chars) : Chars :=
  joinWith "\n\n".data
    ((vttChunks u (splitLines s)).map (fun c => '[' :: c.label ++ ']' :: ' ' :: c.text))

/-- A caption document whose two cues are 50 seconds apart. -/
def cueLinesSparse : List Chars :=
  [ "00:00:00.000 --> 00:00:01.000".data
  , "hello".data
  , "00:00:50.000 --> 00:00:51.000".data
  , "world!".data ]

/-- The per-chunk guarantee enforced at every chunk emission. -/
def chunkBoundsOk (c : VttChunk) : Prop :=
  20 ≤ c.endSec - c.startSec ∧
    (lastCharPunct c.text = true ∨ 40 ≤ c.endSec - c.startSec)

/-! ## Supporting lemmas and claim theorems -/

theorem splitLines_ne_nil (s : Chars) : splitLines s ≠ [] := by
  induction s with
  | nil => simp [splitLines]
  | cons c cs ih =>
    simp only [splitLines]
    split
    · simp
    · cases h : splitLines cs with
      | nil => simp
      | cons l ls => simp

theorem join_splitLines (s : Chars) : joinLines (splitLines s) = s := by
  induction s with
  | nil => simp [splitLines, joinLines]
  | cons c cs ih =>
    simp only [splitLines]
    split
    · rename_i h
      subst h
      cases h2 : splitLines cs with
      | nil => exact absurd h2 (splitLines_ne_nil cs)
      | cons l ls =>
        simp only [joinLines]
        rw [← h2, ih]
        simp
    · cases h2 : splitLines cs with
      | nil => exact absurd h2 (splitLines_ne_nil cs)
      | cons l ls =>
        have hjoin : joinLines (l :: ls) = cs := by rw [← h2, ih]
        cases ls with
        | nil =>
          simp only [joinLines] at hjoin ⊢
          rw [hjoin]
        | cons l2 ls2 =>
          simp only [joinLines] at hjoin ⊢
          rw [List.cons_append, hjoin]

theorem newline_not_mem_splitLines (s : Chars) :
    ∀ l ∈ splitLines s, '\n' ∉ l := by
  induction s with
  | nil => intro l hl; simp [splitLines] at hl; simp [hl]
  | cons c cs ih =>
    intro l hl
    simp only [splitLines] at hl
    split at hl
    · rcases List.mem_cons.mp hl with h | h
      · simp [h]
      · exact ih l h
    · rename_i hc
      cases h2 : splitLines cs with
      | nil => exact absurd h2 (splitLines_ne_nil cs)
      | cons x xs =>
        rw [h2] at hl
        rcases List.mem_cons.mp hl with h | h
        · subst h
          intro hmem
          rcases List.mem_cons.mp hmem with h | h
          · exact hc h.symm
          · exact ih x (h2 ▸ List.mem_cons_self x xs) h
        · exact ih l (h2 ▸ List.mem_cons_of_mem x h)

theorem splitLines_append_newline (l : Chars) (r : Chars) (hl : '\n' ∉ l) :
    splitLines (l ++ '\n' :: r) = l :: splitLines r := by
  induction l with
  | nil => simp [splitLines]
  | cons c cs ih =>
    have hc : c ≠ '\n' := fun h => hl (h ▸ List.mem_cons_self c cs)
    have hcs : '\n' ∉ cs := fun h => hl (List.mem_cons_of_mem c h)
    have hih := ih hcs
    simp only [List.cons_append, splitLines, if_neg hc]
    rw [show cs.append ('\n' :: r) = cs ++ '\n' :: r from rfl, hih]

theorem splitLines_single (l : Chars) (hl : '\n' ∉ l) : splitLines l = [l] := by
  induction l with
  | nil => simp [splitLines]
  | cons c cs ih =>
    have hc : c ≠ '\n' := fun h => hl (h ▸ List.mem_cons_self c cs)
    have hcs : '\n' ∉ cs := fun h => hl (List.mem_cons_of_mem c h)
    simp only [splitLines, if_neg hc]
    rw [ih hcs]

theorem splitLines_joinLines (ls : List Chars) (hne : ls ≠ [])
    (hnl : ∀ l ∈ ls, '\n' ∉ l) : splitLines (joinLines ls) = ls := by
  induction ls with
  | nil => exact absurd rfl hne
  | cons l rest ih =>
    cases rest with
    | nil =>
      simp only [joinLines]
      exact splitLines_single l (hnl l (List.mem_cons_self l []))
    | cons l2 rest2 =>
      simp only [joinLines]
      rw [splitLines_append_newline l _ (hnl l (List.mem_cons_self l _))]
      congr 1
      exact ih (by simp) (fun x hx => hnl x (List.mem_cons_of_mem l hx))

/-- C7 counterexample: on an image that carries both a `src` and a
`data-lazy-src` attribute, the code picks the `src` value, not the
lazy-load value the spec's priority order dictates. -/
theorem C7_counterexample :
    selectImgSrc imgAttrsBoth = some "https://postfiles.pstatic.net/main.png" ∧
    selectImgSrc imgAttrsBoth ≠ selectImgSrcSpecLazyFirst imgAttrsBoth := by
  constructor
  · rfl
  · decide

/-- C7 amended: the image branch selects the first non-empty candidate in
the priority order `src`, `data-lazy-src`, `data-src`, `data-original`
(main attribute first); a protocol-relative source is expanded with a
literal `https:` prefix regardless of the page's scheme, and a
root-relative source is expanded against the page's own scheme and host. -/
theorem C7_img_src_selection_and_expansion (a : ImgAttrs) (base : PageOrigin)
    (uj : String → String) (s : String) :
    imgSrcGate (selectImgSrc a) =
      firstNonEmpty [a.src, a.dataLazySrc, a.dataSrc, a.dataOriginal] ∧
    (strStarts "//" s = true → resolveImgSrc base uj s = "https:" ++ s) ∧
    (strStarts "/" s = true → strStarts "//" s = false →
      resolveImgSrc base uj s = base.scheme ++ "://" ++ base.netloc ++ s) := by
  refine ⟨?_, ?_, ?_⟩
  · rcases a with ⟨src, lazy, dsrc, dorig⟩
    simp only [selectImgSrc, firstNonEmpty, pyOrS, imgSrcGate]
    cases src with
    | none =>
      cases lazy with
      | none =>
        cases dsrc with
        | none =>
          cases dorig with
          | none => rfl
          | some s4 => by_cases h4 : s4 = "" <;> simp [h4, firstNonEmpty]
        | some s3 =>
          by_cases h3 : s3 = "" <;>
            cases dorig with
            | none => simp [h3, firstNonEmpty]
            | some s4 =>
              by_cases h4 : s4 = "" <;> simp [h3, h4, firstNonEmpty]
      | some s2 =>
        by_cases h2 : s2 = "" <;>
          cases dsrc with
          | none =>
            cases dorig with
            | none => simp [h2, firstNonEmpty]
            | some s4 => by_cases h4 : s4 = "" <;> simp [h2, h4, firstNonEmpty]
          | some s3 =>
            by_cases h3 : s3 = "" <;>
              cases dorig with
              | none => simp [h2, h3, firstNonEmpty]
              | some s4 =>
                by_cases h4 : s4 = "" <;> simp [h2, h3, h4, firstNonEmpty]
    | some s1 =>
      by_cases h1 : s1 = ""
      · cases lazy with
        | none =>
          cases dsrc with
          | none =>
            cases dorig with
            | none => simp [h1, firstNonEmpty]
            | some s4 => by_cases h4 : s4 = "" <;> simp [h1, h4, firstNonEmpty]
          | some s3 =>
            by_cases h3 : s3 = "" <;>
              cases dorig with
              | none => simp [h1, h3, firstNonEmpty]
              | some s4 =>
                by_cases h4 : s4 = "" <;> simp [h1, h3, h4, firstNonEmpty]
        | some s2 =>
          by_cases h2 : s2 = "" <;>
            cases dsrc with
            | none =>
              cases dorig with
              | none => simp [h1, h2, firstNonEmpty]
              | some s4 => by_cases h4 : s4 = "" <;> simp [h1, h2, h4, firstNonEmpty]
            | some s3 =>
              by_cases h3 : s3 = "" <;>
                cases dorig with
                | none => simp [h1, h2, h3, firstNonEmpty]
                | some s4 =>
                  by_cases h4 : s4 = "" <;> simp [h1, h2, h3, h4, firstNonEmpty]
      · simp [h1, firstNonEmpty]
  · intro h
    simp [resolveImgSrc, h]
  · intro h1 h2
    simp [resolveImgSrc, h1, h2]

/-- Witness for the hypothesised parts of the amended C7 theorem at a
concrete root-relative and protocol-relative source. -/
theorem C7_img_src_selection_and_expansion_witness :
    resolveImgSrc ⟨"http", "blog.naver.com"⟩ id "/img/a.png" =
      "http://blog.naver.com/img/a.png" ∧
    resolveImgSrc ⟨"http", "blog.naver.com"⟩ id "//cdn.example/x.png" =
      "https://cdn.example/x.png" := by
  have h := C7_img_src_selection_and_expansion imgAttrsBoth
    ⟨"http", "blog.naver.com"⟩ id "/img/a.png"
  have h2 := C7_img_src_selection_and_expansion imgAttrsBoth
    ⟨"http", "blog.naver.com"⟩ id "//cdn.example/x.png"
  exact ⟨h.2.2 (by decide) (by decide), h2.2.1 (by decide)⟩

theorem splitOnceC_not_mem {c : Char} {a : Chars} (h : c ∉ a) :
    splitOnceC c a = (a, none) := by
  induction a with
  | nil => rfl
  | cons x xs ih =>
    have hx : x ≠ c := fun hxc => h (hxc ▸ List.mem_cons_self x xs)
    have hxs : c ∉ xs := fun hm => h (List.mem_cons_of_mem x hm)
    simp only [splitOnceC, if_neg hx, ih hxs]

theorem splitOnceC_append {c : Char} {a b : Chars} (h : c ∉ a) :
    splitOnceC c (a ++ c :: b) = (a, some b) := by
  induction a with
  | nil => simp [splitOnceC]
  | cons x xs ih =>
    have hx : x ≠ c := fun hxc => h (hxc ▸ List.mem_cons_self x xs)
    have hxs : c ∉ xs := fun hm => h (List.mem_cons_of_mem x hm)
    simp only [List.cons_append, splitOnceC, if_neg hx]
    rw [show xs.append (c :: b) = xs ++ c :: b from rfl, ih hxs]

theorem takeWhile_append_all {p : Char → Bool} {a b : Chars}
    (h : ∀ x ∈ a, p x = true) :
    List.takeWhile p (a ++ b) = a ++ List.takeWhile p b := by
  induction a with
  | nil => simp
  | cons x xs ih =>
    have hx : p x = true := h x (List.mem_cons_self x xs)
    simp only [List.cons_append, List.takeWhile_cons, hx, if_true]
    rw [ih (fun y hy => h y (List.mem_cons_of_mem x hy))]

theorem dropWhile_append_all {p : Char → Bool} {a b : Chars}
    (h : ∀ x ∈ a, p x = true) :
    List.dropWhile p (a ++ b) = List.dropWhile p b := by
  induction a with
  | nil => simp
  | cons x xs ih =>
    have hx : p x = true := h x (List.mem_cons_self x xs)
    simp only [List.cons_append, List.dropWhile_cons, hx, if_true]
    exact ih (fun y hy => h y (List.mem_cons_of_mem x hy))

theorem splitParams_not_mem {p : Chars} (h : ';' ∉ p) :
    splitParams p = (p, []) := by
  unfold splitParams
  by_cases hs : '/' ∈ p
  · simp only [if_pos hs]
    have hsub : ';' ∉ (p.reverse.takeWhile (· ≠ '/')).reverse := by
      intro hm
      have hm2 : ';' ∈ p.reverse.takeWhile (· ≠ '/') := List.mem_reverse.mp hm
      exact h (List.mem_reverse.mp (List.takeWhile_subset _ hm2))
    rw [splitOnceC_not_mem hsub]
  · simp only [if_neg hs]
    rw [splitOnceC_not_mem h]

theorem urlparseHttp_constructed (scheme host path : Chars) (q f : Option Chars)
    (hsch : ':' ∉ scheme)
    (hhost : ∀ c ∈ host, isNetlocEnd c = false)
    (hpath : hasPrefixC "/".data path = true ∨ path = [])
    (hpq : '?' ∉ path) (hpf : '#' ∉ path)
    (hps : ';' ∉ path)
    (hqf : ∀ qq, q = some qq → '#' ∉ qq) :
    urlparseHttp (scheme ++ ':' :: '/' :: '/' :: (host ++ (path ++ (qpart q ++ fpart f))))
      = { scheme := scheme, netloc := host, path := path, params := [],
          query := q.getD [], fragment := f.getD [] } := by
  have hq2 : '#' ∉ path ++ qpart q := by
    intro hm
    rcases List.mem_append.mp hm with hmm | hmm
    · exact hpf hmm
    · cases q with
      | none => simp [qpart] at hmm
      | some qq =>
        simp only [qpart, List.mem_cons] at hmm
        rcases hmm with hmm | hmm
        · exact absurd hmm (by decide)
        · exact hqf qq rfl hmm
  have htail : List.takeWhile (fun c => !isNetlocEnd c) (path ++ (qpart q ++ fpart f)) = [] := by
    rcases hpath with hp | hp
    · cases path with
      | nil => simp [hasPrefixC] at hp
      | cons c cs =>
        have hc : c = '/' := by
          simp only [hasPrefixC] at hp
          have h2 := (Bool.and_eq_true _ _).mp hp
          exact (beq_iff_eq.mp h2.1).symm
        subst hc
        simp [List.takeWhile, isNetlocEnd]
    · subst hp
      cases q with
      | some qq => simp [qpart, List.takeWhile, isNetlocEnd]
      | none =>
        cases f with
        | some ff => simp [qpart, fpart, List.takeWhile, isNetlocEnd]
        | none => simp [qpart, fpart]
  have hdtail : List.dropWhile (fun c => !isNetlocEnd c) (path ++ (qpart q ++ fpart f))
      = path ++ (qpart q ++ fpart f) := by
    cases hx : path ++ (qpart q ++ fpart f) with
    | nil => simp
    | cons c cs =>
      have : List.takeWhile (fun c => !isNetlocEnd c) (c :: cs) = [] := hx ▸ htail
      simp only [List.takeWhile_cons] at this
      split at this
      · exact absurd this (by simp)
      · rename_i hfalse
        simp only [List.dropWhile_cons]
        rw [if_neg hfalse]
  unfold urlparseHttp
  rw [splitOnceC_append hsch]
  simp only [Option.getD_some, List.drop_succ_cons, List.drop_zero]
  rw [takeWhile_append_all (fun c hc => by simp [hhost c hc]),
      dropWhile_append_all (fun c hc => by simp [hhost c hc])]
  rw [htail, hdtail]
  have hfragsplit : splitOnceC '#' (path ++ (qpart q ++ fpart f))
      = (path ++ qpart q, f) := by
    cases f with
    | some ff =>
      rw [show path ++ (qpart q ++ fpart (some ff)) = (path ++ qpart q) ++ '#' :: ff by
        simp [fpart]]
      rw [splitOnceC_append hq2]
    | none =>
      rw [show path ++ (qpart q ++ fpart none) = path ++ qpart q by simp [fpart]]
      rw [splitOnceC_not_mem hq2]
  rw [hfragsplit]
  have hquerysplit : splitOnceC '?' (path ++ qpart q) = (path, q) := by
    cases q with
    | some qq =>
      rw [show path ++ qpart (some qq) = path ++ '?' :: qq by simp [qpart]]
      rw [splitOnceC_append hpq]
    | none =>
      rw [show path ++ qpart none = path by simp [qpart]]
      rw [splitOnceC_not_mem hpq]
  rw [hquerysplit]
  rw [splitParams_not_mem hps]
  simp

/-- The guard of `download_and_resize` accepts the constructed URL. -/
theorem imageFetch_guard (https : Bool) (rest : Chars) :
    (hasPrefixC "http://".data ((if https then "https".data else "http".data)
        ++ ':' :: '/' :: '/' :: rest)
      || hasPrefixC "https://".data ((if https then "https".data else "http".data)
        ++ ':' :: '/' :: '/' :: rest)) = true := by
  cases https <;> simp [hasPrefixC]

theorem urlunparse_type966 (scheme netloc path : Chars) (hs : scheme ≠ [])
    (hn : netloc ≠ [])
    (hp : hasPrefixC "/".data path = true ∨ path = []) :
    urlunparseM scheme netloc path [] "type=w966".data []
      = scheme ++ "://".data ++ netloc ++ path ++ "?type=w966".data := by
  have hu1 : (if path ≠ [] ∧ ¬ hasPrefixC "/".data path = true then '/' :: path else path)
      = path := by
    rcases hp with hp2 | hp2
    · rw [if_neg]; intro h2; exact h2.2 hp2
    · subst hp2; rw [if_neg]; intro h2; exact h2.1 rfl
  simp only [urlunparseM]
  simp [hs, hn, hu1]
  intro hne
  rcases hp with hp2 | hp2
  · exact hp2
  · exact absurd hp2 hne

/-- C9: for a well-formed image URL, `download_and_resize` fetches the
rewritten URL `scheme://host/path?type=w966` — the whole original query
string and fragment discarded and the single parameter `type=w966` set,
whether or not a `type` parameter was present — exactly when the URL
string contains `pstatic.net` or `naver.com`; any other URL is fetched
unmodified. -/
theorem C9_naver_image_url_rewrite
    (https : Bool) (host path : Chars) (q f : Option Chars)
    (hhostne : host ≠ []) (hhost : ∀ c ∈ host, isNetlocEnd c = false)
    (hpath : hasPrefixC "/".data path = true ∨ path = [])
    (hpq : '?' ∉ path) (hpf : '#' ∉ path) (hps : ';' ∉ path)
    (hqf : ∀ qq, q = some qq → '#' ∉ qq) :
    imageFetchTarget (mkHttpUrl https host path q f) =
      some (if containsC "pstatic.net".data (mkHttpUrl https host path q f)
              || containsC "naver.com".data (mkHttpUrl https host path q f)
            then httpScheme https ++ "://".data ++ host ++ path ++ "?type=w966".data
            else mkHttpUrl https host path q f) := by
  have hsch : ':' ∉ httpScheme https := by
    cases https <;> simp [httpScheme]
  have hguard := imageFetch_guard https (host ++ (path ++ (qpart q ++ fpart f)))
  unfold imageFetchTarget
  rw [show mkHttpUrl https host path q f
      = (if https then "https".data else "http".data)
        ++ ':' :: '/' :: '/' :: (host ++ (path ++ (qpart q ++ fpart f))) from rfl] at *
  rw [if_neg (by rw [hguard]; simp)]
  by_cases hc : (containsC "pstatic.net".data ((if https then "https".data else "http".data)
        ++ ':' :: '/' :: '/' :: (host ++ (path ++ (qpart q ++ fpart f))))
      || containsC "naver.com".data ((if https then "https".data else "http".data)
        ++ ':' :: '/' :: '/' :: (host ++ (path ++ (qpart q ++ fpart f))))) = true
  · rw [if_pos hc, if_pos hc]
    have hparse := urlparseHttp_constructed (httpScheme https) host path q f
      hsch hhost hpath hpq hpf hps hqf
    rw [show (if https then "https".data else "http".data) = httpScheme https from rfl,
        hparse]
    simp only [ite_self]
    have hschne : httpScheme https ≠ [] := by cases https <;> simp [httpScheme]
    rw [urlunparse_type966 (httpScheme https) host path hschne hhostne hpath]
  · rw [if_neg hc, if_neg hc]

theorem hasPrefixC_append_self (p r : Chars) : hasPrefixC p (p ++ r) = true := by
  induction p with
  | nil => rfl
  | cons c cs ih => simp [hasPrefixC, ih]

theorem hasPrefixC_exists {p s : Chars} (h : hasPrefixC p s = true) :
    ∃ r, s = p ++ r := by
  induction p generalizing s with
  | nil => exact ⟨s, rfl⟩
  | cons c cs ih =>
    cases s with
    | nil => simp [hasPrefixC] at h
    | cons x xs =>
      simp only [hasPrefixC, Bool.and_eq_true, beq_iff_eq] at h
      obtain ⟨r, hr⟩ := ih h.2
      exact ⟨r, by rw [h.1, hr]; rfl⟩

theorem matchIdAfter_some {s vid : Chars} (h : matchIdAfter s = some vid) :
    vid.length = 11 ∧ vid.all isIdChar = true ∧ ∃ post, s = vid ++ post := by
  unfold matchIdAfter at h
  split at h
  · rename_i hcond
    cases h
    exact ⟨hcond.1, hcond.2, s.drop 11, (List.take_append_drop 11 s).symm⟩
  · cases h

theorem matchIdAfter_of {vid : Chars} (post : Chars) (h11 : vid.length = 11)
    (hall : vid.all isIdChar = true) : matchIdAfter (vid ++ post) = some vid := by
  unfold matchIdAfter
  have ht : (vid ++ post).take 11 = vid := by
    rw [← h11]
    exact List.take_left vid post
  rw [ht, if_pos ⟨h11, hall⟩]

theorem tryAltsAt_some {alts : List Chars} {s vid : Chars}
    (h : tryAltsAt alts s = some vid) :
    ∃ alt ∈ alts, ∃ post, s = alt ++ (vid ++ post) ∧ vid.length = 11 ∧
      vid.all isIdChar = true := by
  induction alts with
  | nil => cases h
  | cons alt rest ih =>
    simp only [tryAltsAt] at h
    split at h
    · rename_i i hi
      cases h
      split at hi
      · rename_i hpre
        obtain ⟨r, hr⟩ := hasPrefixC_exists hpre
        subst hr
        rw [List.drop_left] at hi
        obtain ⟨h11, hall, post, hpost⟩ := matchIdAfter_some hi
        exact ⟨alt, List.mem_cons_self _ _, post, by rw [hpost], h11, hall⟩
      · cases hi
    · rename_i hnone
      obtain ⟨alt2, hmem, post, hs, h11, hall⟩ := ih h
      exact ⟨alt2, List.mem_cons_of_mem _ hmem, post, hs, h11, hall⟩

theorem tryAltsAt_isSome_of {alts : List Chars} {alt vid : Chars} (post : Chars)
    (hmem : alt ∈ alts) (h11 : vid.length = 11) (hall : vid.all isIdChar = true) :
    (tryAltsAt alts (alt ++ (vid ++ post))).isSome = true := by
  induction alts with
  | nil => cases hmem
  | cons a rest ih =>
    simp only [tryAltsAt]
    rcases List.mem_cons.mp hmem with heq | hmem2
    · subst heq
      rw [if_pos (hasPrefixC_append_self alt _), List.drop_left,
        matchIdAfter_of post h11 hall]
      rfl
    · cases hx : (if hasPrefixC a (alt ++ (vid ++ post)) then
          matchIdAfter ((alt ++ (vid ++ post)).drop a.length) else none) with
      | some i => simp
      | none => simpa using ih hmem2

theorem searchVid_some {alts : List Chars} {s vid : Chars}
    (h : searchVid alts s = some vid) :
    ∃ pre alt post, alt ∈ alts ∧ s = pre ++ (alt ++ (vid ++ post)) ∧
      vid.length = 11 ∧ vid.all isIdChar = true := by
  induction s with
  | nil =>
    obtain ⟨alt, hmem, post, hs, h11, hall⟩ := tryAltsAt_some h
    exact ⟨[], alt, post, hmem, by rw [← hs]; rfl, h11, hall⟩
  | cons c cs ih =>
    simp only [searchVid] at h
    split at h
    · rename_i i hi
      cases h
      obtain ⟨alt, hmem, post, hs, h11, hall⟩ := tryAltsAt_some hi
      exact ⟨[], alt, post, hmem, by rw [← hs]; rfl, h11, hall⟩
    · obtain ⟨pre, alt, post, hmem, hs, h11, hall⟩ := ih h
      exact ⟨c :: pre, alt, post, hmem, by rw [List.cons_append, ← hs], h11, hall⟩

theorem searchVid_isSome_of {alts : List Chars} {alt vid : Chars} (pre post : Chars)
    (hmem : alt ∈ alts) (h11 : vid.length = 11) (hall : vid.all isIdChar = true) :
    (searchVid alts (pre ++ (alt ++ (vid ++ post)))).isSome = true := by
  induction pre with
  | nil =>
    simp only [List.nil_append]
    cases hne : alt ++ (vid ++ post) with
    | nil =>
      exfalso
      rcases List.append_eq_nil.mp hne with ⟨_, h2⟩
      rcases List.append_eq_nil.mp h2 with ⟨h3, _⟩
      rw [h3] at h11
      simp at h11
    | cons c cs =>
      simp only [searchVid]
      have hsome := tryAltsAt_isSome_of post hmem h11 hall
      rw [hne] at hsome
      cases hx : tryAltsAt alts (c :: cs) with
      | some i => simp
      | none => rw [hx] at hsome; simp at hsome
  | cons c cs ih =>
    simp only [List.cons_append, searchVid]
    cases hx : tryAltsAt alts (c :: (cs ++ (alt ++ (vid ++ post)))) with
    | some i => simp
    | none => simpa using ih

/-- Witness for C9: a naver-hosted thumbnail URL with a size-limiting
`type` parameter and a fragment is rewritten, and a third-party image URL
passes through untouched. -/
theorem C9_naver_image_url_rewrite_witness :
    imageFetchTarget (mkHttpUrl true "postfiles.pstatic.net".data "/a/b.jpg".data
        (some "type=w80_blur".data) (some "frag".data))
      = some "https://postfiles.pstatic.net/a/b.jpg?type=w966".data ∧
    imageFetchTarget (mkHttpUrl false "cdn.example.org".data "/pic.png".data
        (some "type=w80".data) none)
      = some (mkHttpUrl false "cdn.example.org".data "/pic.png".data
        (some "type=w80".data) none) := by
  constructor
  · have h := C9_naver_image_url_rewrite true "postfiles.pstatic.net".data "/a/b.jpg".data
      (some "type=w80_blur".data) (some "frag".data)
      (by decide) (by decide) (by left; decide) (by decide) (by decide) (by decide)
      (by intro qq hqq; cases hqq; decide)
    rw [h]
    decide
  · have h := C9_naver_image_url_rewrite false "cdn.example.org".data "/pic.png".data
      (some "type=w80".data) none
      (by decide) (by decide) (by left; decide) (by decide) (by decide) (by decide)
      (by intro qq hqq; cases hqq; decide)
    rw [h]
    decide

/-- C1 counterexample: in a call where every collaborator succeeds, the
pipeline runs the browser-automation tier (and only it); the captions-API
tier is not attempted at all, contradicting the claimed order
captions-API first, downloader second, browser last. -/
theorem C1_counterexample :
    ytTiersAttempted ytEnvAllOk urlYtShort = [Tier.browser] ∧
    Tier.api ∉ ytTiersAttempted ytEnvAllOk urlYtShort := by
  have h : ytTiersAttempted ytEnvAllOk urlYtShort = [Tier.browser] := by decide
  exact ⟨h, by rw [h]; decide⟩

/-- C1 amended: the caption tiers are attempted in the fixed order
browser-automation first, then captions-API, then downloader-tool
(yt-dlp); the captions-API tier runs exactly when the browser tier did
not succeed, and the downloader tier runs exactly when additionally the
captions-API tier raised. -/
theorem C1_caption_tier_order (env : YtEnv) (url : Chars) :
    List.Sublist (ytTiersAttempted env url) [Tier.browser, Tier.api, Tier.ytdlp] ∧
    (ytTiersAttempted env url).head? =
      (if (extractVideoId url).isSome then some Tier.browser else none) ∧
    ((Tier.api ∈ ytTiersAttempted env url) ↔
      (extractVideoId url).isSome = true ∧ env.browser.success = false) ∧
    ((Tier.ytdlp ∈ ytTiersAttempted env url) ↔
      (extractVideoId url).isSome = true ∧ env.browser.success = false ∧
        isErrorE env.apiOutcome = true) := by
  unfold ytTiersAttempted ytExtractContentT
  cases hv : extractVideoId url with
  | none => simp
  | some vid =>
    cases hb : env.browser.success with
    | true => simp [hb]
    | false =>
      simp only [hb, Bool.false_eq_true, if_false]
      unfold extractTranscriptT
      cases ha : env.apiOutcome with
      | ok cues => simp [isErrorE, ha]
      | error e =>
        cases hy : env.ytdlpOutcome with
        | ok o => cases o <;> simp [isErrorE, ha]
        | error e2 => simp [isErrorE, ha]

/-- C2 counterexample: on a generic (non-Naver) URL where both the
primary extractor and the DOM-walk fallback fail, the article entry
point raises the fallback's wrapped exception — an error that is neither
an unparseable URL nor an unrecognized video ID — instead of returning a
structured failure result. -/
theorem C2_counterexample :
    webExtractContent webEnvBothFail urlGeneric =
      Except.error ClipError.fallbackFailed ∧
    ClipError.fallbackFailed ≠ ClipError.videoIdNotFound := by
  exact ⟨rfl, by decide⟩

/-- C2 amended: the Naver-blog article path never raises (total failure
becomes a structured result with an explanatory body); the generic
article path raises exactly when the primary tier fails and the DOM-walk
fallback also raises; the video path raises exactly when the video ID is
unrecognized or the uncaught thumbnail `requests.head` probe raises. -/
theorem C2_extraction_error_boundary (wenv : WebEnv) (yenv : YtEnv)
    (wurl yurl : Chars) :
    isErrorE (webExtractContent wenv wurl) =
      (!isNaverBlogUrl wurl && webPrimaryFails wenv && isErrorE wenv.fallbackBody) ∧
    isErrorE (ytExtractContent yenv yurl) =
      ((extractVideoId yurl).isNone || isErrorE yenv.thumbHead) := by
  constructor
  · unfold webExtractContent webPrimaryFails
    cases hn : isNaverBlogUrl wurl with
    | true => simp [isErrorE]
    | false =>
      simp only [Bool.not_false, Bool.true_and, if_false, Bool.false_eq_true]
      cases hf : wenv.trafFetch with
      | none => simp [fallbackExtract, isErrorE]; cases wenv.fallbackBody <;> simp [isErrorE]
      | some d =>
        cases he : wenv.trafExtract with
        | none => simp [fallbackExtract, isErrorE]; cases wenv.fallbackBody <;> simp [isErrorE]
        | some article =>
          by_cases hlen : article.length < 100
          · simp only [if_pos hlen, fallbackExtract, decide_eq_true_eq, hlen, decide_True,
              Bool.true_and]
            cases wenv.fallbackBody <;> simp [isErrorE]
          · simp [if_neg hlen, isErrorE, hlen]
  · unfold ytExtractContent ytExtractContentT
    cases hv : extractVideoId yurl with
    | none => simp [isErrorE]
    | some vid =>
      cases hb : yenv.browser.success with
      | true =>
        simp only [if_true]
        unfold ytAssemble getThumbnailUrl
        cases ht : yenv.thumbHead <;> simp [isErrorE]
      | false =>
        simp only [Bool.false_eq_true, if_false]
        unfold ytAssemble getThumbnailUrl
        cases ht : yenv.thumbHead <;> simp [isErrorE]

/-- C8: when the primary (trafilatura) tier yields no text or text
shorter than 100 characters on a generic article, the DOM-walk fallback
is invoked and its outcome (result or raised error) is what the caller
receives. -/
theorem C8_short_primary_triggers_fallback (env : WebEnv) (url : Chars) (d : String)
    (hn : isNaverBlogUrl url = false)
    (hf : env.trafFetch = some d)
    (hshort : env.trafExtract = none ∨
      ∃ a, env.trafExtract = some a ∧ a.length < 100) :
    webExtractContent env url = fallbackExtract env := by
  unfold webExtractContent
  rw [if_neg (by simp [hn]), hf]
  rcases hshort with h | ⟨a, ha, hlen⟩
  · rw [h]
  · rw [ha]
    simp [if_pos hlen]

/-- Witness for C8: an environment whose primary tier extracted exactly
50 characters hands the caller the fallback's result. -/
theorem C8_short_primary_triggers_fallback_witness :
    webExtractContent webEnvShortArticle urlGeneric =
      Except.ok { title := "A title"
                  content := "fallback body text"
                  url := "https://example.com/post/1"
                  ctype := "article"
                  htmlContent := "" } := by
  have h := C8_short_primary_triggers_fallback webEnvShortArticle urlGeneric
    "<html><body>page</body></html>" (by decide) rfl
    (Or.inr ⟨"only fifty characters of extracted article text xx", rfl, by decide⟩)
  rw [h]
  rfl

/-- C10: `extract_video_id` is total and, when it finds an ID, returns
exactly 11 characters drawn from letters, digits, `_` and `-`; it
returns `none` precisely when no recognized pattern occurrence (one of
the three literal prefixes followed by 11 such characters) exists in the
URL; and the video entry point raises its unrecognized-video-ID error
exactly when `extract_video_id` returns `none`. -/
theorem C10_extract_video_id_total (url : Chars) :
    (∀ vid, extractVideoId url = some vid →
      vid.length = 11 ∧ vid.all isIdChar = true) ∧
    (extractVideoId url = none ↔ ¬ SpecVidMatch url) ∧
    (∀ env, ytExtractContent env url = Except.error ClipError.videoIdNotFound ↔
      extractVideoId url = none) := by
  refine ⟨?_, ?_, ?_⟩
  · intro vid h
    unfold extractVideoId at h
    cases h1 : searchVid ["youtube.com/watch?v=".data, "youtu.be/".data] url with
    | some i =>
      rw [h1] at h
      cases h
      obtain ⟨_, _, _, _, _, h11, hall⟩ := searchVid_some h1
      exact ⟨h11, hall⟩
    | none =>
      rw [h1] at h
      obtain ⟨_, _, _, _, _, h11, hall⟩ := searchVid_some h
      exact ⟨h11, hall⟩
  · constructor
    · intro h hspec
      unfold extractVideoId at h
      cases h1 : searchVid ["youtube.com/watch?v=".data, "youtu.be/".data] url with
      | some i => rw [h1] at h; cases h
      | none =>
        rw [h1] at h
        obtain ⟨pre, vid, post, h11, hall, hcase⟩ := hspec
        rcases hcase with hu | hu | hu
        · have := searchVid_isSome_of pre post
            (show "youtube.com/watch?v=".data ∈
              ["youtube.com/watch?v=".data, "youtu.be/".data] by simp) h11 hall
          rw [← hu, h1] at this
          simp at this
        · have := searchVid_isSome_of pre post
            (show "youtu.be/".data ∈
              ["youtube.com/watch?v=".data, "youtu.be/".data] by simp) h11 hall
          rw [← hu, h1] at this
          simp at this
        · have h2 : searchVid ["youtube.com/embed/".data] url = none := h
          have := searchVid_isSome_of pre post
            (show "youtube.com/embed/".data ∈ ["youtube.com/embed/".data] by simp)
            h11 hall
          rw [← hu, h2] at this
          simp at this
    · intro hns
      by_contra hne
      cases h : extractVideoId url with
      | none => exact hne h
      | some vid =>
        apply hns
        unfold extractVideoId at h
        cases h1 : searchVid ["youtube.com/watch?v=".data, "youtu.be/".data] url with
        | some i =>
          rw [h1] at h
          cases h
          obtain ⟨pre, alt, post, hmem, hs, h11, hall⟩ := searchVid_some h1
          rcases List.mem_cons.mp hmem with ha | ha
          · exact ⟨pre, vid, post, h11, hall, Or.inl (by rw [hs, ha])⟩
          · rcases List.mem_cons.mp ha with ha2 | ha2
            · exact ⟨pre, vid, post, h11, hall, Or.inr (Or.inl (by rw [hs, ha2]))⟩
            · cases ha2
        | none =>
          rw [h1] at h
          obtain ⟨pre, alt, post, hmem, hs, h11, hall⟩ := searchVid_some h
          rcases List.mem_cons.mp hmem with ha | ha
          · exact ⟨pre, vid, post, h11, hall, Or.inr (Or.inr (by rw [hs, ha]))⟩
          · cases ha
  · intro env
    unfold ytExtractContent ytExtractContentT
    cases hv : extractVideoId url with
    | none => simp
    | some vid =>
      cases hb : env.browser.success with
      | true =>
        simp only [if_true]
        unfold ytAssemble getThumbnailUrl
        cases env.thumbHead <;> simp
      | false =>
        simp only [Bool.false_eq_true, if_false]
        unfold ytAssemble getThumbnailUrl
        cases env.thumbHead <;> simp

/-- Witness for C10 at a realistic watch URL with extra query
parameters. -/
theorem C10_extract_video_id_total_witness :
    extractVideoId "https://www.youtube.com/watch?v=dQw4w9WgXcQ&t=1s".data =
      some "dQw4w9WgXcQ".data ∧
    "dQw4w9WgXcQ".data.length = 11 ∧
    "dQw4w9WgXcQ".data.all isIdChar = true ∧
    (ytExtractContent ytEnvAllOk "https://www.example.com/".data =
      Except.error ClipError.videoIdNotFound ↔
      extractVideoId "https://www.example.com/".data = none) := by
  have hx : extractVideoId "https://www.youtube.com/watch?v=dQw4w9WgXcQ&t=1s".data =
      some "dQw4w9WgXcQ".data := by decide
  have h := (C10_extract_video_id_total
    "https://www.youtube.com/watch?v=dQw4w9WgXcQ&t=1s".data).1 "dQw4w9WgXcQ".data hx
  exact ⟨hx, h.1, h.2,
    (C10_extract_video_id_total "https://www.example.com/".data).2.2 ytEnvAllOk⟩

/-- C3 counterexample: the noise filter is not idempotent.  On this
input the near-duplicate pass deletes two lines that sat between
isolated blank lines, leaving a run of blank lines that a second run's
blank-collapse pass removes, so `filter (filter s) ≠ filter s`. -/
theorem C3_counterexample :
    cleanNaverMessages (cleanNaverMessages docSimilarRuns) ≠
      cleanNaverMessages docSimilarRuns := by
  decide

/-- C6 counterexample: the filter's output can contain a run of three
consecutive blank lines — the near-duplicate pass removes non-blank
lines from between isolated blanks and never re-collapses them. -/
theorem C6_counterexample :
    hasThreeBlankRun (splitLines (cleanNaverMessages docSimilarRunsB)) = true := by
  decide

/-- C5 counterexample: the near-duplicate pass does not implement the
claimed rule.  A non-blank line of length exactly 20 — which the claim
says is never compared — is dropped by the code (its similarity to the
previous 22-character line is 20/22 under the code's max-denominator
measure), while the spec-worded Jaccard filter keeps it. -/
theorem C5_counterexample :
    lineY20.length = 20 ∧
    nearDupPass [lineP22, lineY20] = [lineP22] ∧
    specNearDupPass [lineP22, lineY20] = [lineP22, lineY20] ∧
    nearDupPass [lineP22, lineY20] ≠ specNearDupPass [lineP22, lineY20] := by
  refine ⟨by decide, by decide, by decide, ?_⟩
  decide

theorem sim_ratio_iff (a b : Nat) (hb : 1 ≤ b) :
    (9 * b < 10 * a) ↔ ((9 : ℚ) / 10 < (a : ℚ) / (b : ℚ)) := by
  have hb2 : (0 : ℚ) < (b : ℚ) := by exact_mod_cast hb
  rw [div_lt_div_iff₀ (by norm_num : (0 : ℚ) < 10) hb2]
  constructor
  · intro h
    have h2 : ((9 * b : Nat) : ℚ) < ((10 * a : Nat) : ℚ) := by exact_mod_cast h
    push_cast at h2
    linarith
  · intro h
    have h2 : ((9 * b : Nat) : ℚ) < ((10 * a : Nat) : ℚ) := by push_cast; linarith
    exact_mod_cast h2

theorem simOver_eq_ratio (cur prev : Chars) :
    simOver cur prev = decide ((9 : ℚ) / 10 < (interCount cur prev : ℚ) /
      (maxDen cur prev : ℚ)) := by
  have hb : 1 ≤ maxDen cur prev :=
    le_max_of_le_right (le_max_right _ _)
  simp only [simOver]
  rw [decide_eq_decide]
  exact sim_ratio_iff _ _ hb

theorem nearDupGo_eq_ratio (ls : List Chars) : ∀ acc,
    nearDupGo acc ls = ratioNearDupGo acc ls := by
  induction ls with
  | nil => intro acc; rfl
  | cons l rest ih =>
    intro acc
    simp only [nearDupGo, ratioNearDupGo]
    have hcond : nearDupDrop (acc.take 5) l = ((acc.take 5).any fun p =>
        !(pstrip p).isEmpty && decide (20 < (pstrip p).length)
          && decide ((9 : ℚ) / 10 < (interCount (pstrip l) (pstrip p) : ℚ) /
              (maxDen (pstrip l) (pstrip p) : ℚ))) := by
      unfold nearDupDrop
      congr 1
      funext p
      rw [simOver_eq_ratio]
    by_cases hb : pstrip l = []
    · simp only [if_pos hb]
      rw [ih]
    · simp only [if_neg hb]
      rw [hcond]
      split
      · exact ih acc
      · rw [ih]

/-- C5 amended: the near-duplicate pass compares every non-blank line
(with no length condition on the line itself) against those of the last
5 kept lines whose stripped length exceeds 20, using similarity
|A ∩ B| / max(|A|, |B|, 1) over the two lines' distinct-character sets,
and drops the line exactly when that ratio exceeds 9/10 against any of
them. -/
theorem C5_near_duplicate_rule (ls : List Chars) :
    nearDupPass ls = ratioNearDupPass ls :=
  nearDupGo_eq_ratio ls []

theorem nbStrips_cons_blank {l : Chars} (o : List Chars) (h : pstrip l = []) :
    nbStrips (l :: o) = nbStrips o := by
  simp [nbStrips, List.filter_cons, h]

theorem nbStrips_cons_nb {l : Chars} (o : List Chars) (h : pstrip l ≠ []) :
    nbStrips (l :: o) = pstrip l :: nbStrips o := by
  simp [nbStrips, List.filter_cons, h]

theorem mem_nbStrips_of {o : List Chars} {x : Chars} (hx : x ∈ o)
    (hnb : pstrip x ≠ []) : pstrip x ∈ nbStrips o := by
  exact List.mem_map_of_mem _ (List.mem_filter.mpr ⟨hx, by simp [hnb]⟩)

theorem nbStrips_sublist {a b : List Chars} (h : List.Sublist a b) :
    List.Sublist (nbStrips a) (nbStrips b) :=
  (h.filter _).map _

/-- Invariants of the first pass: each emitted line is either an empty
blank or an input line whose stripped text is non-blank, unremovable and
unseen; the stripped non-blank lines are pairwise distinct; no two
adjacent blanks; and after a blank state the head is non-blank. -/
theorem cleanPass1Go_spec (ls : List Chars) : ∀ seen lb,
    (∀ l ∈ cleanPass1Go seen lb ls,
      l = [] ∨ (l ∈ ls ∧ pstrip l ≠ [] ∧ shouldRemove (pstrip l) = false ∧
        pstrip l ∉ seen))
    ∧ (nbStrips (cleanPass1Go seen lb ls)).Nodup
    ∧ List.Chain' (fun a b => a = [] → b ≠ []) (cleanPass1Go seen lb ls)
    ∧ (lb = true → ∀ h ∈ (cleanPass1Go seen lb ls).head?, h ≠ []) := by
  induction ls with
  | nil => intro seen lb; exact ⟨by simp [cleanPass1Go], by simp [cleanPass1Go, nbStrips],
      by simp [cleanPass1Go], by simp [cleanPass1Go]⟩
  | cons l rest ih =>
    intro seen lb
    by_cases hb : pstrip l = []
    · cases lb with
      | true =>
        simp only [cleanPass1Go, if_pos hb, if_pos rfl]
        obtain ⟨ih1, ih2, ih3, ih4⟩ := ih seen true
        refine ⟨?_, ih2, ih3, fun _ => ih4 rfl⟩
        intro x hx
        rcases ih1 x hx with h | ⟨hm, h2, h3, h4⟩
        · exact Or.inl h
        · exact Or.inr ⟨List.mem_cons_of_mem l hm, h2, h3, h4⟩
      | false =>
        simp only [cleanPass1Go, if_pos hb, Bool.false_eq_true, if_false]
        obtain ⟨ih1, ih2, ih3, ih4⟩ := ih seen true
        refine ⟨?_, ?_, ?_, ?_⟩
        · intro x hx
          rcases List.mem_cons.mp hx with h | h
          · exact Or.inl h
          · rcases ih1 x h with h2 | ⟨hm, h2, h3, h4⟩
            · exact Or.inl h2
            · exact Or.inr ⟨List.mem_cons_of_mem l hm, h2, h3, h4⟩
        · rw [nbStrips_cons_blank _ (by rfl)]
          exact ih2
        · rw [List.chain'_cons']
          exact ⟨fun b hbm _ => ih4 rfl b hbm, ih3⟩
        · intro h; cases h
    · by_cases hseen : pstrip l ∈ seen
      · simp only [cleanPass1Go, if_neg hb, if_pos hseen]
        obtain ⟨ih1, ih2, ih3, ih4⟩ := ih seen lb
        refine ⟨?_, ih2, ih3, ih4⟩
        intro x hx
        rcases ih1 x hx with h | ⟨hm, h2, h3, h4⟩
        · exact Or.inl h
        · exact Or.inr ⟨List.mem_cons_of_mem l hm, h2, h3, h4⟩
      · by_cases hsr : shouldRemove (pstrip l) = true
        · simp only [cleanPass1Go, if_neg hb, if_neg hseen, if_pos hsr]
          obtain ⟨ih1, ih2, ih3, ih4⟩ := ih (pstrip l :: seen) lb
          refine ⟨?_, ih2, ih3, ih4⟩
          intro x hx
          rcases ih1 x hx with h | ⟨hm, h2, h3, h4⟩
          · exact Or.inl h
          · exact Or.inr ⟨List.mem_cons_of_mem l hm, h2, h3,
              fun hmem => h4 (List.mem_cons_of_mem _ hmem)⟩
        · simp only [cleanPass1Go, if_neg hb, if_neg hseen, if_neg hsr]
          obtain ⟨ih1, ih2, ih3, ih4⟩ := ih (pstrip l :: seen) false
          refine ⟨?_, ?_, ?_, ?_⟩
          · intro x hx
            rcases List.mem_cons.mp hx with h | h
            · subst h
              exact Or.inr ⟨List.mem_cons_self _ _, hb,
                Bool.eq_false_iff.mpr hsr, hseen⟩
            · rcases ih1 x h with h2 | ⟨hm, h2, h3, h4⟩
              · exact Or.inl h2
              · exact Or.inr ⟨List.mem_cons_of_mem l hm, h2, h3,
                  fun hmem => h4 (List.mem_cons_of_mem _ hmem)⟩
          · rw [nbStrips_cons_nb _ hb]
            refine List.Nodup.cons ?_ ih2
            intro hmem
            obtain ⟨x, hxf, hxe⟩ := List.mem_map.mp hmem
            obtain ⟨hxmem, hxnb⟩ := List.mem_filter.mp hxf
            rcases ih1 x hxmem with h | ⟨_, _, _, h4⟩
            · subst h
              simp [pstrip] at hxnb
            · exact h4 (hxe ▸ List.mem_cons_self _ _)
          · rw [List.chain'_cons']
            refine ⟨?_, ih3⟩
            intro b _ hl
            rw [hl] at hb
            exact absurd rfl hb
          · intro _ h hh
            rw [List.head?_cons, Option.mem_some_iff] at hh
            subst hh
            intro hle
            rw [hle] at hb
            exact hb rfl

/-- A line list satisfying the pass-1 output invariants is a fixed point
of pass 1. -/
theorem cleanPass1Go_fixed (o : List Chars) : ∀ seen lb,
    (∀ l ∈ o, l = [] ∨ (pstrip l ≠ [] ∧ shouldRemove (pstrip l) = false ∧
      pstrip l ∉ seen)) →
    (nbStrips o).Nodup →
    List.Chain' (fun a b => a = [] → b ≠ []) o →
    (lb = true → ∀ h ∈ o.head?, h ≠ []) →
    cleanPass1Go seen lb o = o := by
  induction o with
  | nil => intro seen lb _ _ _ _; rfl
  | cons l rest ih =>
    intro seen lb h1 h2 h3 h4
    rcases h1 l (List.mem_cons_self _ _) with hl | ⟨hnb, hsr, hns⟩
    · subst hl
      cases lb with
      | true =>
        exfalso
        exact h4 rfl [] (by simp) rfl
      | false =>
        simp only [cleanPass1Go]
        rw [if_pos (show pstrip ([] : Chars) = [] from rfl)]
        simp only [Bool.false_eq_true, if_false]
        congr 1
        apply ih seen true
        · exact fun x hx => h1 x (List.mem_cons_of_mem _ hx)
        · rwa [nbStrips_cons_blank _ (show pstrip ([] : Chars) = [] from rfl)] at h2
        · exact (List.chain'_cons'.mp h3).2
        · intro _ h hh
          exact (List.chain'_cons'.mp h3).1 h hh rfl
    · simp only [cleanPass1Go, if_neg hnb, if_neg hns,
        if_neg (show ¬ shouldRemove (pstrip l) = true by simp [hsr])]
      congr 1
      rw [nbStrips_cons_nb _ hnb] at h2
      apply ih (pstrip l :: seen) false
      · intro x hx
        rcases h1 x (List.mem_cons_of_mem _ hx) with h | ⟨xnb, xsr, xns⟩
        · exact Or.inl h
        · refine Or.inr ⟨xnb, xsr, ?_⟩
          intro hmem
          rcases List.mem_cons.mp hmem with he | he
          · exact (List.Nodup.not_mem h2) (he ▸ mem_nbStrips_of hx xnb)
          · exact xns he
      · exact List.Nodup.of_cons h2
      · exact (List.chain'_cons'.mp h3).2
      · intro h; cases h

/-- A line list whose stripped non-blank lines are pairwise distinct is
a fixed point of the consecutive/echo duplicate pass, for any previous
state that cannot collide with it. -/
theorem dedupPass3Go_fixed (o : List Chars) : ∀ prev prevPrev,
    (∀ st, prev = some st → st = [] ∨ st ∉ nbStrips o) →
    (∀ st, prevPrev = some st → st = [] ∨ st ∉ nbStrips o) →
    (nbStrips o).Nodup →
    dedupPass3Go prev prevPrev o = o := by
  induction o with
  | nil => intro prev prevPrev _ _ _; rfl
  | cons l rest ih =>
    intro prev prevPrev hprev hpp hnd
    by_cases hnb : pstrip l = []
    · simp only [dedupPass3Go, hnb]
      rw [if_neg (by intro h; exact h.1 rfl), if_neg (by intro h; exact h.1 rfl)]
      congr 1
      apply ih
      · intro st hst
        cases hst
        exact Or.inl rfl
      · intro st hst
        rcases hprev st hst with h | h
        · exact Or.inl h
        · exact Or.inr (fun hm => h (by rwa [nbStrips_cons_blank _ hnb]))
      · rwa [nbStrips_cons_blank _ hnb] at hnd
    · have hmem : pstrip l ∈ nbStrips (l :: rest) :=
        mem_nbStrips_of (List.mem_cons_self _ _) hnb
      simp only [dedupPass3Go]
      rw [if_neg, if_neg]
      · congr 1
        rw [nbStrips_cons_nb _ hnb] at hnd
        apply ih
        · intro st hst
          cases hst
          exact Or.inr (List.Nodup.not_mem hnd)
        · intro st hst
          rcases hprev st hst with h | h
          · exact Or.inl h
          · exact Or.inr (fun hm => h (by
              rw [nbStrips_cons_nb _ hnb]
              exact List.mem_cons_of_mem _ hm))
        · exact List.Nodup.of_cons hnd
      · intro h
        rcases hpp (pstrip l) h.2.1 with he | he
        · exact hnb he
        · exact he hmem
      · intro h
        rcases hprev (pstrip l) h.2 with he | he
        · exact hnb he
        · exact he hmem

theorem dedupPass3Go_sublist (ls : List Chars) : ∀ prev prevPrev,
    List.Sublist (dedupPass3Go prev prevPrev ls) ls := by
  induction ls with
  | nil => intro _ _; exact List.Sublist.refl _
  | cons l rest ih =>
    intro prev prevPrev
    simp only [dedupPass3Go]
    split
    · exact List.Sublist.cons _ (ih _ _)
    · split
      · exact List.Sublist.cons _ (ih _ _)
      · exact List.Sublist.cons₂ _ (ih _ _)

theorem nearDupGo_sublist (ls : List Chars) : ∀ acc,
    List.Sublist (nearDupGo acc ls) ls := by
  induction ls with
  | nil => intro _; exact List.Sublist.refl _
  | cons l rest ih =>
    intro acc
    simp only [nearDupGo]
    split
    · exact List.Sublist.cons₂ _ (ih _)
    · split
      · exact List.Sublist.cons _ (ih _)
      · exact List.Sublist.cons₂ _ (ih _)

theorem dedupPass3_cons (l : Chars) (ls : List Chars) :
    dedupPass3 (l :: ls) = l :: dedupPass3Go (some (pstrip l)) none ls := by
  simp only [dedupPass3, dedupPass3Go]
  rw [if_neg (by intro h; cases h.2), if_neg (by intro h; cases h.2.1)]

theorem nearDupPass_cons (l : Chars) (ls : List Chars) :
    nearDupPass (l :: ls) = l :: nearDupGo [l] ls := by
  simp only [nearDupPass, nearDupGo]
  by_cases hb : pstrip l = []
  · rw [if_pos hb]
  · rw [if_neg hb, if_neg (by simp [nearDupDrop])]

/-- Pairwise-distinct stripped non-blank lines give the no-adjacent-
identical-non-blank-lines property. -/
theorem chain_adj_distinct_of_nodup (ls : List Chars)
    (h : (nbStrips ls).Nodup) :
    List.Chain' (fun a b => pstrip a ≠ [] → pstrip b ≠ [] → a ≠ b) ls := by
  induction ls with
  | nil => simp
  | cons a rest ih =>
    rw [List.chain'_cons']
    by_cases ha : pstrip a = []
    · refine ⟨?_, ih (by rwa [nbStrips_cons_blank _ ha] at h)⟩
      intro b _ hna
      exact absurd ha hna
    · rw [nbStrips_cons_nb _ ha] at h
      refine ⟨?_, ih (List.Nodup.of_cons h)⟩
      intro b hbm hna hnb heq
      have hmem : pstrip b ∈ nbStrips rest := by
        cases rest with
        | nil => cases hbm
        | cons x xs =>
          rw [List.head?_cons, Option.mem_some_iff] at hbm
          subst hbm
          exact mem_nbStrips_of (List.mem_cons_self _ _) hnb
      exact (List.Nodup.not_mem h) (heq ▸ hmem)

/-- C6 amended: whenever the intermediate blank-collapse, strip and
merge substitutions leave the text unchanged, the filter's output
contains no two adjacent identical non-blank lines (the no-run-of-3+-
blank-lines half of the claim is refuted by `C6_counterexample`). -/
theorem C6_no_adjacent_identical (s : Chars)
    (h2 : cleanR2 s = cleanR1 s) (h3 : cleanR3 s = cleanR2 s)
    (h4 : cleanR4 s = cleanR3 s) :
    List.Chain' (fun a b => pstrip a ≠ [] → pstrip b ≠ [] → a ≠ b)
      (splitLines (cleanNaverMessages s)) := by
  obtain ⟨hmem, hnodup, hchain, _⟩ := cleanPass1Go_spec (splitLines s) [] false
  have hnl : ∀ l ∈ cleanPass1 (splitLines s), '\n' ∉ l := by
    intro l hl
    rcases hmem l hl with h | ⟨hm, _, _, _⟩
    · subst h; simp
    · exact newline_not_mem_splitLines s l hm
  have hr4 : cleanR4 s = joinLines (cleanPass1 (splitLines s)) := by
    rw [h4, h3, h2]; rfl
  by_cases hcl0 : cleanPass1 (splitLines s) = []
  · have hr4e : cleanR4 s = [] := by rw [hr4, hcl0]; rfl
    have hsplit4 : splitLines (cleanR4 s) = [[]] := by rw [hr4e]; rfl
    have hr5 : cleanR5 s = [] := by
      unfold cleanR5
      rw [hsplit4]
      rfl
    have hsplit5 : splitLines (cleanR5 s) = [[]] := by rw [hr5]; rfl
    have hfin : cleanNaverMessages s = [] := by
      unfold cleanNaverMessages
      rw [hsplit5]
      rfl
    rw [hfin]
    simp [splitLines]
  · have hsplit4 : splitLines (cleanR4 s) = cleanPass1 (splitLines s) := by
      rw [hr4]
      exact splitLines_joinLines _ hcl0 hnl
    have hdfix : dedupPass3 (cleanPass1 (splitLines s)) = cleanPass1 (splitLines s) :=
      dedupPass3Go_fixed _ none none (by intro st h; cases h) (by intro st h; cases h)
        hnodup
    have hr5 : cleanR5 s = joinLines (cleanPass1 (splitLines s)) := by
      unfold cleanR5
      rw [hsplit4]
      exact congrArg joinLines hdfix
    have hsplit5 : splitLines (cleanR5 s) = cleanPass1 (splitLines s) := by
      rw [hr5]
      exact splitLines_joinLines _ hcl0 hnl
    have hsub : List.Sublist (nearDupPass (cleanPass1 (splitLines s)))
        (cleanPass1 (splitLines s)) := nearDupGo_sublist _ []
    have hnl4 : ∀ l ∈ nearDupPass (cleanPass1 (splitLines s)), '\n' ∉ l :=
      fun l hl => hnl l (hsub.subset hl)
    have hnodup4 : (nbStrips (nearDupPass (cleanPass1 (splitLines s)))).Nodup :=
      List.Nodup.sublist (nbStrips_sublist hsub) hnodup
    have hp4ne : nearDupPass (cleanPass1 (splitLines s)) ≠ [] := by
      cases hc : cleanPass1 (splitLines s) with
      | nil => exact absurd hc hcl0
      | cons a as => rw [nearDupPass_cons]; simp
    have hfinal : splitLines (cleanNaverMessages s) =
        nearDupPass (cleanPass1 (splitLines s)) := by
      unfold cleanNaverMessages
      rw [hsplit5]
      exact splitLines_joinLines _ hp4ne hnl4
    rw [hfinal]
    exact chain_adj_distinct_of_nodup _ hnodup4

/-- Witness for the amended C6 at a concrete input. -/
theorem C6_no_adjacent_identical_witness :
    List.Chain' (fun a b => pstrip a ≠ [] → pstrip b ≠ [] → a ≠ b)
      (splitLines (cleanNaverMessages docPlain)) :=
  C6_no_adjacent_identical docPlain (by decide) (by decide) (by decide)

/-- C3 amended: the noise filter is idempotent on every input for which
the blank-collapse, strip and merge substitutions leave the first run's
intermediate text unchanged and the near-duplicate pass removes no line
(general idempotence is refuted by `C3_counterexample`). -/
theorem C3_conditional_idempotence (s : Chars)
    (h2 : cleanR2 s = cleanR1 s) (h3 : cleanR3 s = cleanR2 s)
    (h4 : cleanR4 s = cleanR3 s)
    (h5 : nearDupPass (splitLines (cleanR5 s)) = splitLines (cleanR5 s)) :
    cleanNaverMessages (cleanNaverMessages s) = cleanNaverMessages s := by
  obtain ⟨hmem, hnodup, hchain, _⟩ := cleanPass1Go_spec (splitLines s) [] false
  have hnl : ∀ l ∈ cleanPass1 (splitLines s), '\n' ∉ l := by
    intro l hl
    rcases hmem l hl with h | ⟨hm, _, _, _⟩
    · subst h; simp
    · exact newline_not_mem_splitLines s l hm
  have hr1s : cleanR1 s = joinLines (cleanPass1 (splitLines s)) := rfl
  have hr4 : cleanR4 s = joinLines (cleanPass1 (splitLines s)) := by
    rw [h4, h3, h2]
    exact hr1s
  by_cases hcl0 : cleanPass1 (splitLines s) = []
  · have hr4e : cleanR4 s = [] := by rw [hr4, hcl0]; rfl
    have hsplit4 : splitLines (cleanR4 s) = [[]] := by rw [hr4e]; rfl
    have hr5 : cleanR5 s = [] := by
      unfold cleanR5
      rw [hsplit4]
      rfl
    have hsplit5 : splitLines (cleanR5 s) = [[]] := by rw [hr5]; rfl
    have hfin : cleanNaverMessages s = [] := by
      unfold cleanNaverMessages
      rw [hsplit5]
      rfl
    rw [hfin]
    decide
  · have hsplit4 : splitLines (cleanR4 s) = cleanPass1 (splitLines s) := by
      rw [hr4]
      exact splitLines_joinLines _ hcl0 hnl
    have hdfix : dedupPass3 (cleanPass1 (splitLines s)) = cleanPass1 (splitLines s) :=
      dedupPass3Go_fixed _ none none (by intro st h; cases h) (by intro st h; cases h)
        hnodup
    have hr5 : cleanR5 s = joinLines (cleanPass1 (splitLines s)) := by
      unfold cleanR5
      rw [hsplit4]
      exact congrArg joinLines hdfix
    have hsplit5 : splitLines (cleanR5 s) = cleanPass1 (splitLines s) := by
      rw [hr5]
      exact splitLines_joinLines _ hcl0 hnl
    rw [hsplit5] at h5
    have hf : cleanNaverMessages s = joinLines (cleanPass1 (splitLines s)) := by
      unfold cleanNaverMessages
      rw [hsplit5, h5]
    have hsplit_t : splitLines (joinLines (cleanPass1 (splitLines s))) =
        cleanPass1 (splitLines s) := splitLines_joinLines _ hcl0 hnl
    have hp1fix : cleanPass1Go [] false (cleanPass1 (splitLines s)) =
        cleanPass1 (splitLines s) := by
      apply cleanPass1Go_fixed _ [] false
      · intro l hl
        rcases hmem l hl with h | ⟨_, hb2, hsr, _⟩
        · exact Or.inl h
        · exact Or.inr ⟨hb2, hsr, by simp⟩
      · exact hnodup
      · exact hchain
      · intro h; cases h
    have hr1t : cleanR1 (joinLines (cleanPass1 (splitLines s))) =
        joinLines (cleanPass1 (splitLines s)) := by
      unfold cleanR1
      rw [hsplit_t]
      exact congrArg joinLines hp1fix
    have h2t : collapseNl (joinLines (cleanPass1 (splitLines s))) =
        joinLines (cleanPass1 (splitLines s)) := by
      have := h2
      rw [show cleanR2 s = collapseNl (cleanR1 s) from rfl, hr1s] at this
      exact this
    have h3t : pstrip (joinLines (cleanPass1 (splitLines s))) =
        joinLines (cleanPass1 (splitLines s)) := by
      have := h3
      rw [show cleanR3 s = pstrip (cleanR2 s) from rfl, h2, hr1s] at this
      exact this
    have h4t : mergeSub (joinLines (cleanPass1 (splitLines s))) =
        joinLines (cleanPass1 (splitLines s)) := by
      have := h4
      rw [show cleanR4 s = mergeSub (cleanR3 s) from rfl, h3, h2, hr1s] at this
      exact this
    have hr2t : cleanR2 (joinLines (cleanPass1 (splitLines s))) =
        joinLines (cleanPass1 (splitLines s)) := by
      unfold cleanR2
      rw [hr1t, h2t]
    have hr3t : cleanR3 (joinLines (cleanPass1 (splitLines s))) =
        joinLines (cleanPass1 (splitLines s)) := by
      unfold cleanR3
      rw [hr2t, h3t]
    have hr4t : cleanR4 (joinLines (cleanPass1 (splitLines s))) =
        joinLines (cleanPass1 (splitLines s)) := by
      unfold cleanR4
      rw [hr3t, h4t]
    have hr5t : cleanR5 (joinLines (cleanPass1 (splitLines s))) =
        joinLines (cleanPass1 (splitLines s)) := by
      unfold cleanR5
      rw [hr4t, hsplit_t]
      exact congrArg joinLines hdfix
    have hft : cleanNaverMessages (joinLines (cleanPass1 (splitLines s))) =
        joinLines (cleanPass1 (splitLines s)) := by
      unfold cleanNaverMessages
      rw [hr5t, hsplit_t, h5]
    rw [hf, hft]

/-- Witness for the amended C3 at a concrete input. -/
theorem C3_conditional_idempotence_witness :
    cleanNaverMessages (cleanNaverMessages docPlain) =
      cleanNaverMessages docPlain :=
  C3_conditional_idempotence docPlain (by decide) (by decide) (by decide) (by decide)

/-- C4 counterexample: with two cues 50 seconds apart, the single
emitted chunk spans 50 seconds — more than the claimed 40-second
maximum.  (`html.unescape` is instantiated with the identity, faithful
for this entity-free input.) -/
theorem C4_counterexample :
    (vttChunks id cueLinesSparse).map (fun c => c.endSec - c.startSec) = [50] ∧
    (vttChunks id cueLinesSparse).map VttChunk.text = ["hello world!".data] ∧
    (50 : Int) > 40 := by
  refine ⟨by decide, by decide, by decide⟩

theorem joinSpaces_ne_nil {y : Chars} (xs : List Chars) (hy : y ≠ []) :
    joinSpaces (xs ++ [y]) ≠ [] := by
  induction xs with
  | nil => simpa [joinSpaces] using hy
  | cons x rest ih =>
    cases h : rest ++ [y] with
    | nil => exact absurd (List.append_eq_nil.mp h).2 (by simp)
    | cons z zs =>
      rw [List.cons_append, h]
      simp [joinSpaces]

theorem joinSpaces_getLast {y : Chars} (xs : List Chars) (hy : y ≠ []) :
    (joinSpaces (xs ++ [y])).getLast? = y.getLast? := by
  induction xs with
  | nil => simp [joinSpaces]
  | cons x rest ih =>
    have hne : joinSpaces (rest ++ [y]) ≠ [] := joinSpaces_ne_nil rest hy
    cases h : rest ++ [y] with
    | nil => exact absurd (List.append_eq_nil.mp h).2 (by simp)
    | cons z zs =>
      rw [List.cons_append, h]
      simp only [joinSpaces]
      rw [← h]
      cases hj : joinSpaces (rest ++ [y]) with
      | nil => exact absurd hj hne
      | cons w ws =>
        rw [List.getLast?_append, List.getLast?_cons_cons, ← hj, ih]
        have hys : y.getLast?.isSome = true := List.getLast?_isSome.mpr hy
        cases hl : y.getLast? with
        | none => rw [hl] at hys; cases hys
        | some a => simp [hl, Option.or]

theorem lastCharPunct_joinSpaces {y : Chars} (xs : List Chars) (hy : y ≠ []) :
    lastCharPunct (joinSpaces (xs ++ [y])) = lastCharPunct y := by
  unfold lastCharPunct
  rw [joinSpaces_getLast xs hy]

theorem vttTimeUpd_finalOutput (st : VttState) (line : Chars) :
    (vttTimeUpd st line).finalOutput = st.finalOutput := by
  unfold vttTimeUpd
  cases findTime line <;> rfl

theorem vttAppend_inv {st : VttState} {ct : Chars}
    (h : ∀ c ∈ st.finalOutput, chunkBoundsOk c) (hct : ct ≠ []) :
    ∀ c ∈ (vttAppend st ct).finalOutput, chunkBoundsOk c := by
  unfold vttAppend
  by_cases hd : 20 ≤ st.currentSeconds - st.chunkStartSeconds
  · rw [if_pos hd]
    by_cases hp : lastCharPunct ct = true ∨ 40 ≤ st.currentSeconds - st.chunkStartSeconds
    · rw [if_pos hp]
      intro c hc
      rcases List.mem_append.mp hc with hm | hm
      · exact h c hm
      · rw [List.mem_singleton] at hm
        subst hm
        refine ⟨hd, ?_⟩
        rcases hp with hp | hp
        · exact Or.inl (by rw [lastCharPunct_joinSpaces st.currentChunk hct]; exact hp)
        · exact Or.inr hp
    · rw [if_neg hp]
      exact h
  · rw [if_neg hd]
    exact h

theorem vttStep_inv (u : Chars → Chars) (st : VttState) (raw : Chars)
    (h : ∀ c ∈ st.finalOutput, chunkBoundsOk c) :
    ∀ c ∈ (vttStep u st raw).finalOutput, chunkBoundsOk c := by
  unfold vttStep
  have h1 : ∀ c ∈ (vttTimeUpd st (pstrip raw)).finalOutput, chunkBoundsOk c := by
    rw [vttTimeUpd_finalOutput]
    exact h
  by_cases hs : vttSkip (vttTimeUpd st (pstrip raw)) (pstrip raw) = true
  · rw [if_pos hs]
    exact h1
  · rw [if_neg hs]
    set ct := pstrip (dropLeadJunk (pstrip (stripTags (u (pstrip raw)))))
    by_cases hc : ¬ ct.isEmpty = true ∧ ct ∉ (vttTimeUpd st (pstrip raw)).seen
    · rw [if_pos hc]
      exact vttAppend_inv h1 (by simpa using hc.1)
    · rw [if_neg hc]
      exact h1

theorem vttFold_inv (u : Chars → Chars) (lines : List Chars) : ∀ st : VttState,
    (∀ c ∈ st.finalOutput, chunkBoundsOk c) →
    ∀ c ∈ (List.foldl (vttStep u) st lines).finalOutput, chunkBoundsOk c := by
  induction lines with
  | nil => intro st h; exact h
  | cons l rest ih =>
    intro st h
    exact ih (vttStep u st l) (vttStep_inv u st l h)

/-- C4 amended: for every cue document and every chunk the loop emits
(all chunks except a possible final flush), the chunk spans at least 20
seconds and either its text ends in terminal punctuation or it spans at
least 40 seconds.  There is no 40-second upper bound: a chunk absorbs
the full gap to the cue that closes it (`C4_counterexample`). -/
theorem C4_closed_chunk_bounds (u : Chars → Chars) (lines : List Chars) :
    ∀ c ∈ (vttRun u lines).finalOutput,
      20 ≤ c.endSec - c.startSec ∧
        (lastCharPunct c.text = true ∨ 40 ≤ c.endSec - c.startSec) := by
  exact vttFold_inv u lines vttInit (by intro c hc; cases hc)

/-- Witness for the amended C4: a document with a sentence boundary 25
seconds in emits one closed chunk; the theorem applies to it. -/
theorem C4_closed_chunk_bounds_witness :
    ∃ c ∈ (vttRun id
      [ "00:00:00.000 --> 00:00:01.000".data
      , "hi there".data
      , "00:00:25.000 --> 00:00:26.000".data
      , "all done.".data ]).finalOutput,
      20 ≤ c.endSec - c.startSec ∧
        (lastCharPunct c.text = true ∨ 40 ≤ c.endSec - c.startSec) := by
  have hmem : { label := "00:00:00".data
                text := "hi there all done.".data
                startSec := (0 : Int)
                endSec := (25 : Int) } ∈ (vttRun id
      [ "00:00:00.000 --> 00:00:01.000".data
      , "hi there".data
      , "00:00:25.000 --> 00:00:26.000".data
      , "all done.".data ]).finalOutput := by decide
  exact ⟨_, hmem, C4_closed_chunk_bounds id _ _ hmem⟩
